import Mathlib

/-!
Verification of the wireguard-uapi netlink codec and session layer.

This file gives a shallow embedding, in Lean 4, of the parts of the
`wireguard-uapi` Rust crate needed to settle the claims about it:

* the 4-byte alignment helpers (`src/netlink/bindings.rs`),
* the message serializer `MsgBuilder` / `NestBuilder` (`src/netlink/send.rs`),
* the receive-side `AttributeIterator` and `PartIterator` (`src/netlink/recv.rs`),
* the generic and route session objects (`src/netlink/generic.rs`, `src/netlink/rt.rs`),
* the WireGuard domain layer `Peer` / `WireguardDev` (`src/wireguard.rs`).

Modelling conventions:

* Byte buffers are total functions `Nat → Nat`; every write stores the byte
  modulo 256, every read reduces the stored value modulo 256 (u8 semantics).
  The Rust buffers are fixed arrays (2048 bytes for sending, 4096 for
  receiving); size-bound hypotheses appear in the theorems where the bound
  matters.  The host is little-endian (the spec puts big-endian hosts out of
  scope), so C-struct copies are modelled by their little-endian memory image.
* Machine integers are `Nat` with explicit `% 2^w` where overflow matters;
  the signed 32-bit errno is decoded explicitly from its bit pattern.
* Fallible paths return `Option` / `Except`; a Rust `panic!` inside an
  iterator step is a distinguished constructor of the step result.
-/

/-- `nl_align_length` from `src/netlink/bindings.rs`: round `size` up to a
multiple of 4 (the Rust source computes `((size) + 3) & !3`). -/
def nl_align_length (size : Nat) : Nat := (size + 3) / 4 * 4

/-- `nl_size_of_aligned::<nlattr>()`: an `nlattr` is two u16 fields, 4 bytes. -/
def nlattrSize : Nat := 4

/-- `nl_size_of_aligned::<nlmsghdr>()`: u32, u16, u16, u32, u32 = 16 bytes. -/
def nlmsghdrSize : Nat := 16

/-- `nl_size_of_aligned::<genlmsghdr>()`: u8, u8, u16 = 4 bytes. -/
def genlmsghdrSize : Nat := 4

/-- `nl_size_of_aligned::<ifinfomsg>()`: u8, u8, u16, i32, u32, u32 = 16 bytes. -/
def ifinfomsgSize : Nat := 16

theorem nl_align_length_ge (n : Nat) : n ≤ nl_align_length n := by
  unfold nl_align_length; omega

theorem nl_align_length_lt (n : Nat) : nl_align_length n < n + 4 := by
  unfold nl_align_length; omega

theorem nl_align_length_add_four (n : Nat) :
    nl_align_length (4 + n) = 4 + nl_align_length n := by
  unfold nl_align_length; omega

theorem nl_align_length_of_aligned {n : Nat} (h : n % 4 = 0) :
    nl_align_length n = n := by
  unfold nl_align_length; omega

/-- Read one byte (u8 semantics) from a byte buffer. -/
def byteAt (buf : Nat → Nat) (p : Nat) : Nat := buf p % 256

/-- `u16::from_le_bytes` on two buffer bytes, as done by `FromAttr for u16`
and by the header extraction in `MsgBuffer::deserialize`. -/
def readU16 (buf : Nat → Nat) (p : Nat) : Nat :=
  byteAt buf p + 256 * byteAt buf (p + 1)

/-- `u32::from_le_bytes` on four buffer bytes. -/
def readU32 (buf : Nat → Nat) (p : Nat) : Nat :=
  byteAt buf p + 256 * byteAt buf (p + 1) + 65536 * byteAt buf (p + 2) +
    16777216 * byteAt buf (p + 3)

/-- Write a list of bytes into the buffer starting at `p` (each byte is
stored modulo 256, as a `u8`). -/
def writeBytes (buf : Nat → Nat) (p : Nat) : List Nat → (Nat → Nat)
  | [] => buf
  | b :: rest => writeBytes (Function.update buf p (b % 256)) (p + 1) rest

/-- Little-endian memory image of a `u16` value. -/
def le16 (n : Nat) : List Nat := [n % 256, n / 256 % 256]

/-- Big-endian byte order of a `u16` value (the image of `v.to_be()` stored
on a little-endian host). -/
def be16 (n : Nat) : List Nat := [n / 256 % 256, n % 256]

/-- Little-endian memory image of a `u32` value. -/
def le32 (n : Nat) : List Nat :=
  [n % 256, n / 256 % 256, n / 65536 % 256, n / 16777216 % 256]

/-- `u16::swap_bytes`, i.e. `u16::to_be`/`u16::from_be` on a little-endian
host (for values below 2^16). -/
def swap16 (n : Nat) : Nat := n % 256 * 256 + n / 256 % 256

/-- `u32::swap_bytes` for values below 2^32. -/
def swap32 (n : Nat) : Nat :=
  n % 256 * 16777216 + n / 256 % 256 * 65536 + n / 65536 % 256 * 256 +
    n / 16777216 % 256

theorem writeBytes_frame (bs : List Nat) (buf : Nat → Nat) (p x : Nat)
    (h : x < p ∨ p + bs.length ≤ x) : writeBytes buf p bs x = buf x := by
  induction bs generalizing buf p with
  | nil => rfl
  | cons b rest ih =>
    simp only [writeBytes]
    rw [ih]
    · exact Function.update_noteq (by simp at h; omega) _ _
    · simp at h ⊢; omega

theorem writeBytes_getD (bs : List Nat) (buf : Nat → Nat) (p i : Nat)
    (h : i < bs.length) : writeBytes buf p bs (p + i) = bs.getD i 0 % 256 := by
  induction bs generalizing buf p i with
  | nil => simp at h
  | cons b rest ih =>
    simp only [writeBytes]
    cases i with
    | zero =>
      simp only [Nat.add_zero]
      rw [writeBytes_frame rest _ (p + 1) p (by omega)]
      simp [Function.update]
    | succ j =>
      have := ih (Function.update buf p (b % 256)) (p + 1) j (by simp at h; omega)
      simpa [Nat.add_assoc, Nat.add_comm 1 j] using this

/-- Reading a little-endian u16 back from where it was written. -/
theorem readU16_writeBytes_two (buf : Nat → Nat) (p a b : Nat) :
    readU16 (writeBytes buf p [a, b]) p = a % 256 + 256 * (b % 256) := by
  have h0 := writeBytes_getD [a, b] buf p 0 (by simp)
  have h1 := writeBytes_getD [a, b] buf p 1 (by simp)
  simp only [Nat.add_zero] at h0
  unfold readU16 byteAt
  rw [h0, h1]
  simp [List.getD]

/-! ## Constants from the kernel uapi headers (via `build.rs` bindgen) -/

def AF_INET : Nat := 2
def AF_INET6 : Nat := 10
def NLA_F_NESTED : Nat := 32768
def NLA_F_NET_BYTEORDER : Nat := 16384
def NLMSG_ERROR : Nat := 2
def NLMSG_DONE : Nat := 3
def NLM_F_REQUEST : Nat := 1
def NLM_F_MULTI : Nat := 2
def NLM_F_ACK : Nat := 4
def NLM_F_DUMP_INTR : Nat := 16
def NLM_F_DUMP : Nat := 768
def RTM_NEWLINK : Nat := 16
def RTM_DELLINK : Nat := 17
def RTM_GETLINK : Nat := 18
def MAX_NL_MSG_SIZE : Nat := 2048
def wgpeerPUBLIC_KEY : Nat := 1
def wgpeerENDPOINT : Nat := 4
def wgpeerPERSISTENT_KEEPALIVE_INTERVAL : Nat := 5
def wgpeerALLOWEDIPS : Nat := 9
def wgallowedipFAMILY : Nat := 1
def wgallowedipIPADDR : Nat := 2
def wgallowedipCIDR_MASK : Nat := 3
def wgdevicePEERS : Nat := 8

/-- The crate's unified error kind.  Modelled from the spec: the `Error`
enum and its `From<i32>` conversion are declared in the crate's `netlink`
module file which is not under `src/` (only its uses and re-exports are);
spec section 7 lists the variants, with `OsError(errno)` carrying the
absolute value of a negative kernel errno. -/
inductive ErrorM where
  | Truncated
  | MultipartNotDone
  | Interrupted
  | Invalid
  | WrongGroupName
  | InvalidGroupId
  | NoInterfaceFound
  | Other (msg : String)
  | OsError (errno : Nat)
  | IoError
deriving DecidableEq, Repr

/-! ## Domain entities (`src/wireguard.rs`) -/

/-- `std::net::IpAddr`, with `Ipv4Addr`/`Ipv6Addr` represented by their
octet lists (4 resp. 16 bytes). -/
inductive IpAddrM where
  | v4 (octets : List Nat)
  | v6 (octets : List Nat)
deriving DecidableEq, Repr

/-- `Peer` from `src/wireguard.rs` (key bytes, optional endpoint ip/port,
allowed (ip, cidr-mask) list, optional keepalive seconds). -/
structure PeerM where
  peer_key : List Nat
  endpoint : Option (IpAddrM × Nat)
  allowed_ips : List (IpAddrM × Nat)
  keepalive : Option Nat
deriving DecidableEq, Repr

/-! ## Serializer (`src/netlink/send.rs`)

`MsgBuilder` and `NestBuilder` share one scratch buffer and one write
cursor (`NestBuilder` delegates `buffer()`/`pos()`/`seek_to()` to its upper
builder), so the builder chain is flattened here into a single state and
the nest bookkeeping (`start_pos`, `start_attr`) is threaded explicitly. -/

structure BuildState where
  buf : Nat → Nat
  pos : Nat

/-- The bookkeeping a `NestBuilder` holds for its pending nest:
`start_pos` and the `nla_type` of the reserved `start_attr` header
(`nla_len` is filled in by `attr_list_end`). -/
structure NestInfo where
  start_pos : Nat
  nla_type : Nat

/-- `MsgBuilder::attr_bytes` (and `MsgBuilder::attr::<T>` with `payload`
the memory image of the value): write an `nlattr` header whose `nla_len`
is `4 + payload.len()` (padding excluded), then the payload, and advance
the cursor past the aligned payload. -/
def attrPut (attr_type : Nat) (payload : List Nat) (s : BuildState) : BuildState :=
  { buf := writeBytes
      (writeBytes s.buf s.pos (le16 (nlattrSize + payload.length) ++ le16 attr_type))
      (s.pos + nlattrSize) payload
    pos := s.pos + nlattrSize + nl_align_length payload.length }

/-- `NlSerializer::attr_list_start`: remember the nest start, skip the
4 reserved header bytes, record `nla_type = attr_type | NLA_F_NESTED`. -/
def attr_list_start (s : BuildState) (attr_type : Nat) : BuildState × NestInfo :=
  ({ s with pos := s.pos + nl_align_length nlattrSize },
   { start_pos := s.pos, nla_type := attr_type ||| NLA_F_NESTED })

/-- `NestBuilder::attr_list_end`: back-patch the reserved header with
`nla_len = cursor - start_pos` (a u16 store) and the recorded type. -/
def attr_list_end (s : BuildState) (ni : NestInfo) : BuildState :=
  { buf := writeBytes s.buf ni.start_pos (le16 (s.pos - ni.start_pos) ++ le16 ni.nla_type)
    pos := s.pos }

/-- Memory image of the `sockaddr_in` built by `NestBuilder::attr_endpoint`
on a little-endian host: `sin_family = AF_INET` (u16), `sin_port =
port.to_be()` (so the port bytes land big-endian), `sin_addr.s_addr =
u32::from(ipv4).to_be()` (so the address bytes land in octet order),
8 zero bytes. -/
def sockaddr_in_bytes (port : Nat) (octets : List Nat) : List Nat :=
  le16 AF_INET ++ be16 port ++ octets ++ List.replicate 8 0

/-- Memory image of the `sockaddr_in6` built by `attr_endpoint`:
family, big-endian port, `sin6_flowinfo = 0`, the 16 address octets,
`sin6_scope_id = 0`. -/
def sockaddr_in6_bytes (port : Nat) (octets : List Nat) : List Nat :=
  le16 AF_INET6 ++ be16 port ++ le32 0 ++ octets ++ le32 0

/-- `NestBuilder::add_ip`: FAMILY (u16), IPADDR (octet bytes), then
CIDR_MASK (u8). -/
def add_ip (ip : IpAddrM) (mask : Nat) (s : BuildState) : BuildState :=
  let s1 := match ip with
    | .v4 o => attrPut wgallowedipIPADDR o (attrPut wgallowedipFAMILY (le16 AF_INET) s)
    | .v6 o => attrPut wgallowedipIPADDR o (attrPut wgallowedipFAMILY (le16 AF_INET6) s)
  attrPut wgallowedipCIDR_MASK [mask] s1

/-- `NestBuilder::set_allowed_ips`: one inner nest of type 0 per entry. -/
def set_allowed_ips (ips : List (IpAddrM × Nat)) (s : BuildState) : BuildState :=
  match ips with
  | [] => s
  | (ip, mask) :: rest =>
      let p := attr_list_start s 0
      set_allowed_ips rest (attr_list_end (add_ip ip mask p.1) p.2)

/-- `NestBuilder::attr_endpoint`: a single attribute holding the sockaddr. -/
def attr_endpoint (attr_type : Nat) (ep : IpAddrM × Nat) (s : BuildState) : BuildState :=
  match ep with
  | (.v4 o, port) => attrPut attr_type (sockaddr_in_bytes port o) s
  | (.v6 o, port) => attrPut attr_type (sockaddr_in6_bytes port o) s

/-- `NestBuilder::set_peer`: a nest of type 0 containing PUBLIC_KEY, an
ALLOWEDIPS nest, then the optional ENDPOINT and the optional
PERSISTENT_KEEPALIVE_INTERVAL (u16). -/
def set_peer (peer : PeerM) (s : BuildState) : BuildState :=
  let outer := attr_list_start s 0
  let s1 := attrPut wgpeerPUBLIC_KEY peer.peer_key outer.1
  let inner := attr_list_start s1 wgpeerALLOWEDIPS
  let s2 := attr_list_end (set_allowed_ips peer.allowed_ips inner.1) inner.2
  let s3 := match peer.endpoint with
    | some ep => attr_endpoint wgpeerENDPOINT ep s2
    | none => s2
  let s4 := match peer.keepalive with
    | some ka => attrPut wgpeerPERSISTENT_KEEPALIVE_INTERVAL (le16 ka) s3
    | none => s3
  attr_list_end s4 outer.2

/-! Sizes of the serialized records (buffer slots, header + aligned payload). -/

/-- Slot taken by one flat attribute with a `payloadLen`-byte payload. -/
def attrSlot (payloadLen : Nat) : Nat := nlattrSize + nl_align_length payloadLen

/-- Slot taken by one allowed-ip inner nest. -/
def ipSlot : IpAddrM → Nat
  | .v4 o => nlattrSize + attrSlot 2 + attrSlot o.length + attrSlot 1
  | .v6 o => nlattrSize + attrSlot 2 + attrSlot o.length + attrSlot 1

/-- Slot taken by the body of the ALLOWEDIPS nest. -/
def ipsSlot : List (IpAddrM × Nat) → Nat
  | [] => 0
  | (ip, _) :: rest => ipSlot ip + ipsSlot rest

/-- Slot taken by the optional ENDPOINT attribute. -/
def epSlot : Option (IpAddrM × Nat) → Nat
  | none => 0
  | some (.v4 o, _) => attrSlot (12 + o.length)
  | some (.v6 o, _) => attrSlot (12 + o.length)

/-- Slot taken by the optional keepalive attribute. -/
def kaSlot : Option Nat → Nat
  | none => 0
  | some _ => attrSlot 2

/-- Total slot taken by one serialized peer nest. -/
def peerSlot (p : PeerM) : Nat :=
  nlattrSize + attrSlot p.peer_key.length + (nlattrSize + ipsSlot p.allowed_ips) +
    epSlot p.endpoint + kaSlot p.keepalive

/-! ## Attribute iteration (`src/netlink/recv.rs`) -/

/-- Copy `n` payload bytes starting at `p` out of the buffer (what an
`Attribute::get_bytes` view resolves to). -/
def bytesFrom (buf : Nat → Nat) (p n : Nat) : List Nat :=
  (List.range n).map fun i => byteAt buf (p + i)

/-- The data an `Attribute` view carries: the kind and id from the
`nlattr` type field (`is_nested` tests bit 15, `payload_type` masks out
bits 15 and 14) and the payload bounds (`payload_length` is
`nla_len - 4`). -/
structure RawAttr where
  nested : Bool
  ptype : Nat
  pstart : Nat
  pend : Nat
deriving DecidableEq, Repr

/-- `Attribute::new` applied to a decoded `nlattr` whose payload starts at
`start`. -/
def mkAttr (nla_len nla_type start : Nat) : RawAttr :=
  { nested := NLA_F_NESTED &&& nla_type == NLA_F_NESTED
    ptype := nla_type &&& 16383
    pstart := start
    pend := start + (nla_len - nlattrSize) }

/-- One step of `AttributeIterator::next` over the span `[pos, e)`:
terminate when the 4-byte header read would exceed `e` (the
`deserialize` result is `Truncated` and `.ok()?` stops the iterator),
panic when the aligned record overruns `e`, otherwise yield the view and
advance past the aligned payload. -/
inductive AttrStep where
  | done
  | panicked
  | yield (attr : RawAttr) (next : Nat)
deriving DecidableEq, Repr

def attrNext (buf : Nat → Nat) (pos e : Nat) : AttrStep :=
  if pos + nlattrSize > e then .done
  else if pos + nlattrSize + nl_align_length (readU16 buf pos - nlattrSize) > e then
    .panicked
  else
    .yield (mkAttr (readU16 buf pos) (readU16 buf (pos + 2)) (pos + nlattrSize))
      (pos + nlattrSize + nl_align_length (readU16 buf pos - nlattrSize))

theorem attrNext_yield_bounds (buf : Nat → Nat) (pos e : Nat) (a : RawAttr) (nx : Nat)
    (h : attrNext buf pos e = .yield a nx) :
    pos + nlattrSize ≤ e ∧ pos < nx ∧ nx ≤ e := by
  unfold attrNext at h
  split at h
  · exact absurd h (by simp)
  · split at h
    · exact absurd h (by simp)
    · simp only [AttrStep.yield.injEq] at h
      refine ⟨by omega, ?_, ?_⟩ <;> rw [← h.2] <;> unfold nlattrSize at * <;> omega

/-- Running the attribute iterator to completion, collecting the views in
order; `none` models a panic during iteration. -/
def parseAttrs (buf : Nat → Nat) (pos e : Nat) : Option (List RawAttr) :=
  match h : attrNext buf pos e with
  | .done => some []
  | .panicked => none
  | .yield a nx => (parseAttrs buf nx e).map (a :: ·)
termination_by e - pos
decreasing_by
  have := attrNext_yield_bounds buf pos e a nx h
  omega

/-- `Attribute::get_bytes`: the payload byte range (always `Some`; the
inner `unwrap` cannot fail for in-buffer views). -/
def get_bytes (buf : Nat → Nat) (a : RawAttr) : Option (List Nat) :=
  some (bytesFrom buf a.pstart (a.pend - a.pstart))

/-- `FromAttr for u16` on payload bytes: `buffer[0..2]` little-endian
(a payload shorter than 2 bytes is modelled as `none`). -/
def fromAttrU16 (bs : List Nat) : Option Nat :=
  if 2 ≤ bs.length then some (bs.getD 0 0 + 256 * bs.getD 1 0) else none

/-- `FromAttr for u8` on payload bytes. -/
def fromAttrU8 (bs : List Nat) : Option Nat :=
  if 1 ≤ bs.length then some (bs.getD 0 0) else none

/-! ## Peer parsing (`src/wireguard.rs`) -/

/-- `Ipv4Addr::from (v : u32)`: the octets are the big-endian bytes of `v`. -/
def ipv4FromU32 (v : Nat) : IpAddrM :=
  .v4 [v / 16777216 % 256, v / 65536 % 256, v / 256 % 256, v % 256]

/-- `parse_endpoint`: dispatch on the payload size (28 bytes is a
`sockaddr_in6`, 16 bytes a `sockaddr_in`, anything else yields `None`).
The source `assert_eq!` on the address family is modelled as `none` on
mismatch.  Ports are stored big-endian (`u16::from_be` after the
little-endian field read), the v4 address goes through
`u32::from_be(s_addr)`, the v6 address is the 16 raw octets. -/
def parse_endpoint (bytes : List Nat) : Option (IpAddrM × Nat) :=
  if bytes.length = 28 then
    if bytes.getD 0 0 + 256 * bytes.getD 1 0 = AF_INET6 then
      some (.v6 ((bytes.drop 8).take 16),
        swap16 (bytes.getD 2 0 + 256 * bytes.getD 3 0))
    else none
  else if bytes.length = 16 then
    if bytes.getD 0 0 + 256 * bytes.getD 1 0 = AF_INET then
      some (ipv4FromU32 (swap32 (bytes.getD 4 0 + 256 * bytes.getD 5 0 +
          65536 * bytes.getD 6 0 + 16777216 * bytes.getD 7 0)),
        swap16 (bytes.getD 2 0 + 256 * bytes.getD 3 0))
    else none
  else none

/-- The accumulator loop of `parse_allowed_ip`: IPADDR sets `bytes`,
FAMILY sets `family`, CIDR_MASK sets `mask`, and any other attribute
makes the whole parse return `None`. -/
def allowedIpLoop (buf : Nat → Nat) :
    List RawAttr → Option (List Nat) → Option Nat → Option Nat →
    Option (Option (List Nat) × Option Nat × Option Nat)
  | [], bytes, family, mask => some (bytes, family, mask)
  | a :: rest, bytes, family, mask =>
    if a.nested = false ∧ a.ptype = wgallowedipIPADDR then
      allowedIpLoop buf rest (get_bytes buf a) family mask
    else if a.nested = false ∧ a.ptype = wgallowedipFAMILY then
      allowedIpLoop buf rest bytes ((get_bytes buf a).bind fromAttrU16) mask
    else if a.nested = false ∧ a.ptype = wgallowedipCIDR_MASK then
      allowedIpLoop buf rest bytes family ((get_bytes buf a).bind fromAttrU8)
    else none

/-- `parse_allowed_ip` applied to one child of the ALLOWEDIPS nest.
`attributes()` on a non-nested view is the empty iterator; a panic while
iterating a nested view is modelled as `none`. -/
def parse_allowed_ip (buf : Nat → Nat) (ip_attr : RawAttr) : Option (IpAddrM × Nat) := do
  let children ← if ip_attr.nested then parseAttrs buf ip_attr.pstart ip_attr.pend else some []
  let (bytes, family, mask) ← allowedIpLoop buf children none none none
  let fam ← family
  let ip ← if fam = AF_INET then
      bytes.bind fun b => if b.length = 4 then some (IpAddrM.v4 b) else none
    else if fam = AF_INET6 then
      bytes.bind fun b => if b.length = 16 then some (IpAddrM.v6 b) else none
    else none
  let m ← mask
  some (ip, m)

/-- The attribute loop of `Peer::new`: PUBLIC_KEY extends the key bytes,
ENDPOINT re-parses the endpoint, PERSISTENT_KEEPALIVE_INTERVAL reads a
u16 and drops 0, a nested ALLOWEDIPS replaces the allowed-ip list, and
everything else is ignored. -/
def peerNewLoop (buf : Nat → Nat) :
    List RawAttr → List Nat → Option (IpAddrM × Nat) → List (IpAddrM × Nat) → Option Nat →
    Option PeerM
  | [], key, ep, ips, ka =>
      some { peer_key := key, endpoint := ep, allowed_ips := ips, keepalive := ka }
  | a :: rest, key, ep, ips, ka =>
    if a.nested = false ∧ a.ptype = wgpeerPUBLIC_KEY then
      (get_bytes buf a).bind fun b => peerNewLoop buf rest (key ++ b) ep ips ka
    else if a.nested = false ∧ a.ptype = wgpeerENDPOINT then
      peerNewLoop buf rest key ((get_bytes buf a).bind parse_endpoint) ips ka
    else if a.nested = false ∧ a.ptype = wgpeerPERSISTENT_KEEPALIVE_INTERVAL then
      peerNewLoop buf rest key ep ips
        (((get_bytes buf a).bind fromAttrU16).filter fun v => v != 0)
    else if a.nested = true ∧ a.ptype = wgpeerALLOWEDIPS then
      match parseAttrs buf a.pstart a.pend with
      | some children =>
          peerNewLoop buf rest key ep (children.filterMap (parse_allowed_ip buf)) ka
      | none => none
    else
      peerNewLoop buf rest key ep ips ka

/-- `Peer::new` on the attribute views of a peer nest. -/
def peerNew (buf : Nat → Nat) (attrs : List RawAttr) : Option PeerM :=
  peerNewLoop buf attrs [] none [] none

/-! ## Sessions (`src/netlink/generic.rs`, `src/netlink/rt.rs`) -/

/-- `nlmsghdr` (decoded form). -/
structure NlMsgHdr where
  nlmsg_len : Nat
  nlmsg_type : Nat
  nlmsg_flags : Nat
  nlmsg_seq : Nat
  nlmsg_pid : Nat
deriving DecidableEq, Repr

/-- `nlmsghdr::new`: length filled at send time, flags `REQUEST | ACK`. -/
def nlmsghdrNew (family seq : Nat) : NlMsgHdr :=
  { nlmsg_len := 0, nlmsg_type := family, nlmsg_flags := NLM_F_REQUEST ||| NLM_F_ACK
    nlmsg_seq := seq, nlmsg_pid := 0 }

/-- `MsgBuilder` (`src/netlink/send.rs`): zeroed scratch buffer, header held
aside until `sendto`, cursor starting right after the main header. -/
structure MsgBuilderM where
  build : BuildState
  header : NlMsgHdr

def msgBuilderNew (family seq : Nat) : MsgBuilderM :=
  { build := { buf := fun _ => 0, pos := nlmsghdrSize }, header := nlmsghdrNew family seq }

/-- `MsgBuilder::generic`: append a `genlmsghdr` (cmd, version = 1,
reserved = 0). -/
def msgBuilderGeneric (cmd : Nat) (m : MsgBuilderM) : MsgBuilderM :=
  { m with build := { buf := writeBytes m.build.buf m.build.pos [cmd, 1, 0, 0]
                      pos := m.build.pos + genlmsghdrSize } }

/-- `MsgBuilder::dump`: set `NLM_F_DUMP` on the main header. -/
def msgBuilderDump (m : MsgBuilderM) : MsgBuilderM :=
  { m with header := { m.header with nlmsg_flags := m.header.nlmsg_flags ||| NLM_F_DUMP } }

/-- `MsgBuilder::ifinfomsg` (`src/netlink/rt.rs`): append a route link
sub-header with `ifi_change = 0xFFFFFFFF` and everything else zero. -/
def msgBuilderIfinfomsg (family : Nat) (m : MsgBuilderM) : MsgBuilderM :=
  { m with build := { buf := writeBytes m.build.buf m.build.pos
                        ([family, 0, 0, 0] ++ le32 0 ++ le32 0 ++ le32 4294967295)
                      pos := m.build.pos + ifinfomsgSize } }

/-- `NetlinkGeneric` session state: per-session sequence counter, resolved
family id, multicast-group table (the `HashMap` is modelled as an
association list with first-match lookup). -/
structure NetlinkGenericM where
  seq : Nat
  family : Nat
  mcast_groups : List (String × Nat)

/-- `NetlinkGeneric::build_message`: `MsgBuilder::new(self.family, self.seq)
.generic(cmd)`, then `self.seq += 1`. -/
def build_message (nl : NetlinkGenericM) (cmd : Nat) : MsgBuilderM × NetlinkGenericM :=
  (msgBuilderGeneric cmd (msgBuilderNew nl.family nl.seq), { nl with seq := nl.seq + 1 })

/-- `NetlinkRoute` session state (the `seq` counter). -/
structure NetlinkRouteM where
  seq : Nat

/-- The request `NetlinkRoute::get_interfaces` sends, with the resulting
session state: `MsgBuilder::new(RTM_GETLINK as u16, 1).dump()
.ifinfomsg(AF_UNSPEC)` followed by `self.seq += 1` (the counter is
incremented but not consulted). -/
def get_interfaces_request (nl : NetlinkRouteM) : MsgBuilderM × NetlinkRouteM :=
  (msgBuilderIfinfomsg 0 (msgBuilderDump (msgBuilderNew RTM_GETLINK 1)),
   { seq := nl.seq + 1 })

/-- `HashMap::get` over the multicast-group table. -/
def lookupGroup : List (String × Nat) → String → Option Nat
  | [], _ => none
  | (n, id) :: rest, name => if n = name then some id else lookupGroup rest name

/-- What `NetlinkGeneric::subscribe` binds and returns: a fresh owned
socket (`socket(..)` then `bind(fd, NetlinkAddr::new(pid, groups))`),
wrapped in a `MsgBuffer<OwnedFd>`. -/
structure SubSocketM where
  bind_pid : Nat
  bind_groups : Nat
  owned_fresh_fd : Bool
deriving DecidableEq, Repr

/-- `NetlinkGeneric::subscribe` (it takes `&self`: the session and its
primary socket are untouched).  The group id is looked up; id 0 is
`InvalidGroupId`, a missing name is `WrongGroupName`, otherwise the new
socket is bound to `(pid = 0, groups = 1u32 << (id - 1))`. -/
def subscribe (nl : NetlinkGenericM) (group_name : String) : Except ErrorM SubSocketM :=
  match lookupGroup nl.mcast_groups group_name with
  | some id =>
      if id = 0 then .error .InvalidGroupId
      else .ok { bind_pid := 0, bind_groups := (1 <<< (id - 1)) % 4294967296
                 owned_fresh_fd := true }
  | none => .error .WrongGroupName

/-- The exact message string built by `WireguardDev::new` when several
wireguard interfaces match (the Rust literal spans two source lines, so
it embeds the newline and the continuation indentation). -/
def multipleMsg : String :=
  "Multiple wireguard interfaces found,\n                          please specify an interface name manually"

/-- `WireguardDev::new`, as a function of the discovered wireguard
interface list (name, index) and the optional name filter.  With a filter
the first interface of that exact name is used, otherwise the iterator
must contain exactly one entry. -/
def wireguardDevNew (interfaces : List (String × Int)) (filter : Option String) :
    Except ErrorM (String × Int) :=
  match filter with
  | some ifname =>
      match interfaces.find? (fun i => i.1 == ifname) with
      | some interface => .ok interface
      | none => .error .NoInterfaceFound
  | none =>
      match interfaces with
      | [] => .error .NoInterfaceFound
      | res :: rest =>
          if rest.length > 0 then .error (.Other multipleMsg) else .ok res

/-! ## `WireguardDev::get_peers` (`src/wireguard.rs`) -/

/-- The test `get_peers` applies to each attribute of a message part. -/
def isPeersAttr (a : RawAttr) : Bool := a.nested && a.ptype == wgdevicePEERS

/-- `Peer::new(peer_attrs.attributes())` for one child of the PEERS nest
(`attributes()` on a non-nested child is the empty iterator; an iterator
panic is modelled as `none`). -/
def peerOfAttr (buf : Nat → Nat) (a : RawAttr) : Option PeerM :=
  match (if a.nested then parseAttrs buf a.pstart a.pend else some []) with
  | some vs => peerNew buf vs
  | none => none

/-- `WireguardDev::parse_peers`. -/
def parse_peers (buf : Nat → Nat) (children : List RawAttr) : List PeerM :=
  children.filterMap (peerOfAttr buf)

/-- `parse_peers(attr.attributes())` on the PEERS nest view itself (an
iterator panic while listing the children is modelled as no peers). -/
def peersOfNest (buf : Nat → Nat) (a : RawAttr) : List PeerM :=
  match parseAttrs buf a.pstart a.pend with
  | some children => parse_peers buf children
  | none => []

/-- The receive loop of `WireguardDev::get_peers`: walk the message parts
in order (`msg?` propagates an error part), return on the first
`Nested(PEERS)` attribute, and fall through to `Ok(Vec::new())`. -/
def get_peers_model (buf : Nat → Nat) :
    List (Except ErrorM (List RawAttr)) → Except ErrorM (List PeerM)
  | [] => .ok []
  | .error e :: _ => .error e
  | .ok attrs :: rest =>
      match attrs.find? isPeersAttr with
      | some attr => .ok (peersOfNest buf attr)
      | none => get_peers_model buf rest

/-! ## Helper lemmas -/

theorem readU16_writeBytes_le16_pair (buf : Nat → Nat) (p a b : Nat) :
    readU16 (writeBytes buf p (le16 a ++ le16 b)) p = a % 65536 ∧
    readU16 (writeBytes buf p (le16 a ++ le16 b)) (p + 2) = b % 65536 := by
  have h0 := writeBytes_getD (le16 a ++ le16 b) buf p 0 (by simp [le16])
  have h1 := writeBytes_getD (le16 a ++ le16 b) buf p 1 (by simp [le16])
  have h2 := writeBytes_getD (le16 a ++ le16 b) buf p 2 (by simp [le16])
  have h3 := writeBytes_getD (le16 a ++ le16 b) buf p 3 (by simp [le16])
  simp only [Nat.add_zero] at h0
  constructor
  · unfold readU16 byteAt
    rw [h0, h1]
    simp [le16]
    omega
  · unfold readU16 byteAt
    have e3 : p + 2 + 1 = p + 3 := by omega
    rw [e3, h2, h3]
    simp [le16]
    omega

theorem nl_align_length_sub_four (L : Nat) (h : 4 ≤ L) :
    4 + nl_align_length (L - 4) = nl_align_length L := by
  unfold nl_align_length; omega

theorem or_nested_lt (t : Nat) (ht : t < 65536) : t ||| NLA_F_NESTED < 65536 := by
  have h1 : (65536 : Nat) = 2 ^ 16 := by norm_num
  have h2 : NLA_F_NESTED < 65536 := by unfold NLA_F_NESTED; norm_num
  rw [h1] at *
  exact Nat.or_lt_two_pow ht h2

/-! ## Claim theorems -/

/-- C2 (code-bug evidence): `Peer::new` over an attribute sequence with no
`PUBLIC_KEY` attribute still returns `Some`: on the empty attribute
iterator it yields a peer with an empty key, and likewise when only a
keepalive attribute is present — contradicting both the claim and the
function's own doc comment («Returns `None` if no `PUBLIC_KEY` attribute
was found»). -/
theorem peerNew_without_public_key_is_some :
    peerNew (fun _ => 0) [] =
      some { peer_key := [], endpoint := none, allowed_ips := [], keepalive := none } ∧
    peerNew (fun i => [0, 0, 0, 0, 25, 0].getD i 0)
        [{ nested := false, ptype := wgpeerPERSISTENT_KEEPALIVE_INTERVAL,
           pstart := 4, pend := 6 }] =
      some { peer_key := [], endpoint := none, allowed_ips := [], keepalive := some 25 } := by
  constructor
  · rfl
  · decide

/-- C5: one step of `AttributeIterator::next` over the span `[pos, e)`:
the iterator terminates when the 4-byte header read would exceed `e`;
with a decoded `nla_len`, it panics when the aligned record would extend
past `e`; otherwise it yields a view whose payload `[pos+4, pos+4+(nla_len-4))`
lies inside the span and advances the cursor by the aligned record
length, i.e. (for `nla_len ≥ 4`) to `pos + align(nla_len)`. -/
theorem attrIterator_step (buf : Nat → Nat) (pos e : Nat) :
    (pos + nlattrSize > e → attrNext buf pos e = .done) ∧
    (pos + nlattrSize ≤ e →
      pos + nlattrSize + nl_align_length (readU16 buf pos - nlattrSize) > e →
      attrNext buf pos e = .panicked) ∧
    (pos + nlattrSize ≤ e →
      pos + nlattrSize + nl_align_length (readU16 buf pos - nlattrSize) ≤ e →
      attrNext buf pos e =
        .yield (mkAttr (readU16 buf pos) (readU16 buf (pos + 2)) (pos + nlattrSize))
          (pos + nlattrSize + nl_align_length (readU16 buf pos - nlattrSize)) ∧
      pos ≤ (mkAttr (readU16 buf pos) (readU16 buf (pos + 2)) (pos + nlattrSize)).pstart ∧
      (mkAttr (readU16 buf pos) (readU16 buf (pos + 2)) (pos + nlattrSize)).pend ≤ e ∧
      (nlattrSize ≤ readU16 buf pos →
        pos + nlattrSize + nl_align_length (readU16 buf pos - nlattrSize) =
          pos + nl_align_length (readU16 buf pos))) := by
  refine ⟨?_, ?_, ?_⟩
  · intro h
    unfold attrNext
    rw [if_pos h]
  · intro h1 h2
    unfold attrNext
    rw [if_neg (by omega), if_pos h2]
  · intro h1 h2
    refine ⟨?_, ?_, ?_, ?_⟩
    · unfold attrNext
      rw [if_neg (by omega), if_neg (by omega)]
    · simp [mkAttr]
    · have := nl_align_length_ge (readU16 buf pos - nlattrSize)
      simp [mkAttr]
      omega
    · intro h4
      have h5 := nl_align_length_sub_four (readU16 buf pos) (by unfold nlattrSize at h4; exact h4)
      unfold nlattrSize at *
      omega

def w5buf : Nat → Nat := fun i => [8, 0, 3, 0, 9, 9, 9, 9].getD i 0

theorem attrIterator_step_witness :
    attrNext w5buf 0 8 =
      .yield (mkAttr (readU16 w5buf 0) (readU16 w5buf (0 + 2)) (0 + nlattrSize))
        (0 + nlattrSize + nl_align_length (readU16 w5buf 0 - nlattrSize)) :=
  ((attrIterator_step w5buf 0 8).2.2 (by decide) (by decide)).1

/-- C6 (code-bug evidence): the generic session draws the next sequence
number from the per-session counter and post-increments it (so two
successive `build_message` calls carry `seq` and `seq + 1`), but a route
request built by `get_interfaces` always carries the constant sequence
number 1 while the route session's counter is incremented without ever
being read — so route sequence numbers are reused, contrary to the
claim. -/
theorem sequence_number_allocation :
    (∀ (nl : NetlinkGenericM) (cmd cmd2 : Nat),
      (build_message nl cmd).1.header.nlmsg_seq = nl.seq ∧
      (build_message nl cmd).2.seq = nl.seq + 1 ∧
      (build_message ((build_message nl cmd).2) cmd2).1.header.nlmsg_seq =
        (build_message nl cmd).1.header.nlmsg_seq + 1) ∧
    (∀ (nl : NetlinkRouteM),
      (get_interfaces_request nl).1.header.nlmsg_seq = 1 ∧
      (get_interfaces_request nl).2.seq = nl.seq + 1 ∧
      (get_interfaces_request ((get_interfaces_request nl).2)).1.header.nlmsg_seq =
        (get_interfaces_request nl).1.header.nlmsg_seq) :=
  ⟨fun _ _ _ => ⟨rfl, rfl, rfl⟩, fun _ => ⟨rfl, rfl, rfl⟩⟩

/-- C7: `subscribe(group_name)` with a name absent from the multicast
table fails with `WrongGroupName`; with a name mapped to id 0 it fails
with `InvalidGroupId`; with a nonzero id `g` (kernel group ids fit in a
u32 shift, `g ≤ 32`) it returns a receive buffer owning a fresh second
socket bound to pid 0 and group mask `1 << (g - 1)` — the session itself
(taken by `&self`) and its primary socket are untouched. -/
theorem subscribe_spec (nl : NetlinkGenericM) (name : String) :
    (lookupGroup nl.mcast_groups name = none →
      subscribe nl name = .error .WrongGroupName) ∧
    (lookupGroup nl.mcast_groups name = some 0 →
      subscribe nl name = .error .InvalidGroupId) ∧
    (∀ g, lookupGroup nl.mcast_groups name = some g → g ≠ 0 → g ≤ 32 →
      subscribe nl name =
        .ok { bind_pid := 0, bind_groups := 1 <<< (g - 1), owned_fresh_fd := true }) := by
  refine ⟨?_, ?_, ?_⟩
  · intro h
    simp [subscribe, h]
  · intro h
    simp [subscribe, h]
  · intro g h hg hle
    have hmask : (1 <<< (g - 1)) % 4294967296 = 1 <<< (g - 1) := by
      apply Nat.mod_eq_of_lt
      rw [Nat.shiftLeft_eq, Nat.one_mul]
      calc 2 ^ (g - 1) ≤ 2 ^ 31 := Nat.pow_le_pow_right (by norm_num) (by omega)
        _ < 4294967296 := by norm_num
    simp [subscribe, h, hg, hmask]

def w7session : NetlinkGenericM :=
  { seq := 1, family := 35, mcast_groups := [("peers", 4)] }

theorem subscribe_spec_witness :
    subscribe w7session "peers" =
      .ok { bind_pid := 0, bind_groups := 1 <<< (4 - 1), owned_fresh_fd := true } :=
  (subscribe_spec w7session "peers").2.2 4 (by decide) (by decide) (by decide)

/-- C8: with no name filter, `WireguardDev::new` succeeds exactly when
exactly one wireguard interface was discovered (zero interfaces give
`NoInterfaceFound`, two or more give `Other` with the «multiple» message
and the single interface is the one returned); with a filter it succeeds
exactly when an interface of that exact name exists, else
`NoInterfaceFound`. -/
theorem wireguardDevNew_spec (interfaces : List (String × Int)) :
    ((∃ x, wireguardDevNew interfaces none = .ok x) ↔ interfaces.length = 1) ∧
    (interfaces = [] → wireguardDevNew interfaces none = .error .NoInterfaceFound) ∧
    (2 ≤ interfaces.length →
      wireguardDevNew interfaces none = .error (.Other multipleMsg)) ∧
    (∀ x, interfaces = [x] → wireguardDevNew interfaces none = .ok x) ∧
    (∀ name : String,
      ((∃ x, wireguardDevNew interfaces (some name) = .ok x) ↔
        ∃ i ∈ interfaces, i.1 = name) ∧
      ((∀ i ∈ interfaces, i.1 ≠ name) →
        wireguardDevNew interfaces (some name) = .error .NoInterfaceFound)) := by
  refine ⟨?_, ?_, ?_, ?_, ?_⟩
  · rcases interfaces with _ | ⟨a, _ | ⟨b, rest⟩⟩ <;> simp [wireguardDevNew]
  · intro h
    subst h
    rfl
  · intro h
    rcases interfaces with _ | ⟨a, _ | ⟨b, rest⟩⟩
    · simp at h
    · simp at h
    · simp [wireguardDevNew]
  · intro x h
    subst h
    rfl
  · intro name
    have hmain : ∀ i, interfaces.find? (fun i => i.1 == name) = some i →
        wireguardDevNew interfaces (some name) = .ok i := by
      intro i hf
      simp [wireguardDevNew, hf]
    constructor
    · cases hf : interfaces.find? (fun i => i.1 == name) with
      | none =>
        have hv : wireguardDevNew interfaces (some name) = .error .NoInterfaceFound := by
          simp [wireguardDevNew, hf]
        rw [List.find?_eq_none] at hf
        constructor
        · rintro ⟨x, hx⟩
          rw [hv] at hx
          exact absurd hx (by simp)
        · rintro ⟨i, hi, hn⟩
          exact absurd (by simpa using hn : (i.1 == name) = true) (hf i hi)
      | some i =>
        constructor
        · intro _
          exact ⟨i, List.mem_of_find?_eq_some hf, by simpa using List.find?_some hf⟩
        · intro _
          exact ⟨i, hmain i hf⟩
    · intro h
      have hf : interfaces.find? (fun i => i.1 == name) = none :=
        List.find?_eq_none.mpr (fun x hx => by simpa using h x hx)
      simp [wireguardDevNew, hf]

def w8ifs : List (String × Int) := [("wg0", 3)]

theorem wireguardDevNew_spec_witness :
    wireguardDevNew w8ifs none = .ok ("wg0", 3) :=
  (wireguardDevNew_spec w8ifs).2.2.2.1 ("wg0", 3) rfl

/-- C9: `attr_list_end` back-patches the nest start with an attribute
header whose length field is `cursor - start_pos` and whose type field is
the type passed to `attr_list_start` with bit 15 (`NLA_F_NESTED`) set; in
particular an immediately closed empty nest reads back as an attribute of
length `nlattrSize` (the 4-byte header size) and type `t | NLA_F_NESTED`. -/
theorem attr_list_end_backpatch (s e : BuildState) (t : Nat)
    (ht : t < 65536)
    (hstart : (attr_list_start s t).2.start_pos ≤ e.pos)
    (hlen : e.pos - (attr_list_start s t).2.start_pos < 65536) :
    readU16 (attr_list_end e (attr_list_start s t).2).buf ((attr_list_start s t).2.start_pos) =
      e.pos - (attr_list_start s t).2.start_pos ∧
    readU16 (attr_list_end e (attr_list_start s t).2).buf ((attr_list_start s t).2.start_pos + 2) =
      t ||| NLA_F_NESTED ∧
    (attr_list_end e (attr_list_start s t).2).pos = e.pos ∧
    (attr_list_start s t).1.pos = s.pos + nlattrSize ∧
    readU16 (attr_list_end (attr_list_start s t).1 (attr_list_start s t).2).buf s.pos =
      nlattrSize ∧
    readU16 (attr_list_end (attr_list_start s t).1 (attr_list_start s t).2).buf (s.pos + 2) =
      t ||| NLA_F_NESTED := by
  have horm : (t ||| NLA_F_NESTED) % 65536 = t ||| NLA_F_NESTED :=
    Nat.mod_eq_of_lt (or_nested_lt t ht)
  simp only [attr_list_start] at hstart hlen
  have h1 := readU16_writeBytes_le16_pair e.buf s.pos (e.pos - s.pos) (t ||| NLA_F_NESTED)
  have h2 := readU16_writeBytes_le16_pair s.buf s.pos
    (s.pos + nl_align_length nlattrSize - s.pos) (t ||| NLA_F_NESTED)
  have he : s.pos + nl_align_length nlattrSize - s.pos = nlattrSize := by
    unfold nl_align_length nlattrSize
    omega
  refine ⟨?_, ?_, rfl, rfl, ?_, ?_⟩
  · simp only [attr_list_start, attr_list_end]
    rw [h1.1]
    exact Nat.mod_eq_of_lt hlen
  · simp only [attr_list_start, attr_list_end]
    rw [h1.2, horm]
  · simp only [attr_list_start, attr_list_end]
    rw [h2.1, he]
    decide
  · simp only [attr_list_start, attr_list_end]
    rw [h2.2, horm]

def w9start : BuildState := { buf := fun _ => 0, pos := 0 }

def w9end : BuildState := { buf := fun _ => 0, pos := 12 }

theorem attr_list_end_backpatch_witness :
    readU16 (attr_list_end w9end (attr_list_start w9start 7).2).buf
        ((attr_list_start w9start 7).2.start_pos) =
      w9end.pos - (attr_list_start w9start 7).2.start_pos :=
  (attr_list_end_backpatch w9start w9end 7 (by decide) (by decide) (by decide)).1

/-- C10: `get_peers` walks the dump's message parts in order and returns
the peers parsed from the first `Nested(PEERS)` attribute it encounters:
parts after that one are never inspected (the result does not depend on
them), and if no part carries a PEERS attribute the result is `Ok([])`. -/
theorem get_peers_first_peers (buf : Nat → Nat) :
    (∀ parts : List (Except ErrorM (List RawAttr)),
      (∀ p ∈ parts, ∃ attrs, p = .ok attrs ∧ ∀ a ∈ attrs, isPeersAttr a = false) →
      get_peers_model buf parts = .ok []) ∧
    (∀ (attrs : List RawAttr) (a : RawAttr) (rest rest' : List (Except ErrorM (List RawAttr))),
      attrs.find? isPeersAttr = some a →
      get_peers_model buf (.ok attrs :: rest) = .ok (peersOfNest buf a) ∧
      get_peers_model buf (.ok attrs :: rest) = get_peers_model buf (.ok attrs :: rest')) := by
  constructor
  · intro parts hp
    induction parts with
    | nil => rfl
    | cons p rest ih =>
      obtain ⟨attrs, hpe, hnone⟩ := hp p (by simp)
      subst hpe
      have hf : attrs.find? isPeersAttr = none :=
        List.find?_eq_none.mpr (fun a ha => by simp [hnone a ha])
      simp [get_peers_model, hf]
      exact ih (fun q hq => hp q (by simp [hq]))
  · intro attrs a rest rest' hf
    constructor <;> simp [get_peers_model, hf]

def w10attr : RawAttr := { nested := true, ptype := wgdevicePEERS, pstart := 4, pend := 4 }

theorem get_peers_first_peers_witness :
    get_peers_model (fun _ => 0) [.ok [w10attr]] = .ok (peersOfNest (fun _ => 0) w10attr) :=
  ((get_peers_first_peers (fun _ => 0)).2 [w10attr] w10attr [] [] (by decide)).1

/-! ## Message-part iteration (`src/netlink/recv.rs`, `PartIterator`) -/

/-- `NetlinkType` from `src/netlink/recv.rs`. -/
inductive NetlinkTypeM where
  | Generic (family : Nat)
  | Route
deriving DecidableEq, Repr

/-- `SubHeader`: a decoded `genlmsghdr` or `ifinfomsg`. -/
inductive SubHeaderM where
  | Generic (cmd version reserved : Nat)
  | RouteIfinfo (ifi_family ifi_type ifi_index ifi_flags ifi_change : Nat)
deriving DecidableEq, Repr

/-- `MsgPart` (minus the buffer back-pointer): decoded header, decoded
sub-header, attribute region bounds. -/
structure MsgPartM where
  header : NlMsgHdr
  sub_header : SubHeaderM
  attributes_start : Nat
  attributes_end : Nat
deriving DecidableEq, Repr

/-- Decoding an `nlmsghdr` at `pos` (the 4-byte-aligned copy that
`MsgBuffer::deserialize` takes). -/
def decodeNlMsgHdr (buf : Nat → Nat) (pos : Nat) : NlMsgHdr :=
  { nlmsg_len := readU32 buf pos
    nlmsg_type := readU16 buf (pos + 4)
    nlmsg_flags := readU16 buf (pos + 6)
    nlmsg_seq := readU32 buf (pos + 8)
    nlmsg_pid := readU32 buf (pos + 12) }

/-- The mutable part of a `MsgBuffer` during iteration: buffer content,
number of valid bytes (`size`), and the iterator cursor (`pos`). -/
structure RecvState where
  buf : Nat → Nat
  size : Nat
  pos : Nat

instance {ε α : Type} [DecidableEq ε] [DecidableEq α] : DecidableEq (Except ε α)
  | .error a, .error b =>
    if h : a = b then .isTrue (by rw [h]) else .isFalse (by simp [h])
  | .error _, .ok _ => .isFalse (by simp)
  | .ok _, .error _ => .isFalse (by simp)
  | .ok a, .ok b =>
    if h : a = b then .isTrue (by rw [h]) else .isFalse (by simp [h])

/-- What one `PartIterator::next` call produces: an iterator item
(`Some(Ok(part))` or `Some(Err(e))`), `None` (`stop`), a panic, or a
`recvfrom` that blocks with no more data to model (`blocked`). -/
inductive PartOutcome where
  | item (r : Except ErrorM MsgPartM)
  | stop
  | panicked
  | blocked
deriving DecidableEq, Repr

/-- `MsgBuffer::recv`: `recvfrom` overwrites the head of the buffer with
the datagram and records its length as the new size. -/
def refillBuf (buf : Nat → Nat) (d : List Nat) : Nat → Nat :=
  fun i => if i < d.length then d.getD i 0 % 256 else buf i

/-- One `PartIterator::next` call.  `incoming` is the stream of future
`recvfrom` results (`some d`: a datagram of bytes `d`; `none`: an OS
error, surfaced as `IoError`); an empty stream models a `recvfrom` that
blocks.  Mirrors `src/netlink/recv.rs` lines 212-314: a truncated header
read resets the cursor to 0, refills, and restarts; an `nlmsg_len`
larger than the bytes remaining emits `Truncated` and parks the cursor at
the end; `NLMSG_ERROR` yields `OsError(|errno|)` for a negative errno
(cursor just past the errno) and silently skips errno plus the embedded
request-header copy for errno 0; `NLMSG_DONE` asserts the MULTI flag and
stops; otherwise the family-specific sub-header is decoded and a part is
yielded. -/
def partNext (mt : NetlinkTypeM) (incoming : List (Option (List Nat))) (st : RecvState) :
    PartOutcome × RecvState × List (Option (List Nat)) :=
  if st.pos + nlmsghdrSize > st.size then
    match incoming with
    | [] => (.blocked, { st with pos := 0 }, [])
    | none :: rest => (.item (.error .IoError), { st with pos := 0 }, rest)
    | some d :: rest =>
        partNext mt rest { buf := refillBuf st.buf d, size := d.length, pos := 0 }
  else
    let header := decodeNlMsgHdr st.buf st.pos
    let new_pos := st.pos + nlmsghdrSize
    if header.nlmsg_len > st.size - st.pos then
      (.item (.error .Truncated), { st with pos := st.size }, incoming)
    else
      let current_msg_limit := st.pos + header.nlmsg_len
      if header.nlmsg_type = NLMSG_ERROR then
        if 2147483648 ≤ readU32 st.buf new_pos then
          (.item (.error (.OsError (4294967296 - readU32 st.buf new_pos))),
           { st with pos := new_pos + 4 }, incoming)
        else
          (.stop, { st with pos := new_pos + 4 + nlmsghdrSize }, incoming)
      else if header.nlmsg_type = NLMSG_DONE then
        if header.nlmsg_flags &&& NLM_F_MULTI = NLM_F_MULTI then
          (.stop, { st with pos := new_pos }, incoming)
        else (.panicked, { st with pos := new_pos }, incoming)
      else
        match mt with
        | .Generic fid =>
            if header.nlmsg_type = fid then
              if new_pos + genlmsghdrSize > current_msg_limit then
                (.item (.error .Truncated), { st with pos := new_pos }, incoming)
              else
                (.item (.ok { header := header
                              sub_header := .Generic (byteAt st.buf new_pos)
                                (byteAt st.buf (new_pos + 1)) (readU16 st.buf (new_pos + 2))
                              attributes_start := new_pos + genlmsghdrSize
                              attributes_end := current_msg_limit }),
                 { st with pos := current_msg_limit }, incoming)
            else (.panicked, { st with pos := new_pos }, incoming)
        | .Route =>
            if header.nlmsg_type = RTM_NEWLINK ∨ header.nlmsg_type = RTM_DELLINK then
              if new_pos + ifinfomsgSize > current_msg_limit then
                (.item (.error .Truncated), { st with pos := new_pos }, incoming)
              else
                (.item (.ok { header := header
                              sub_header := .RouteIfinfo (byteAt st.buf new_pos)
                                (readU16 st.buf (new_pos + 2)) (readU32 st.buf (new_pos + 4))
                                (readU32 st.buf (new_pos + 8)) (readU32 st.buf (new_pos + 12))
                              attributes_start := new_pos + ifinfomsgSize
                              attributes_end := current_msg_limit }),
                 { st with pos := current_msg_limit }, incoming)
            else (.panicked, { st with pos := new_pos }, incoming)

/-- A concrete receive buffer holding exactly one `NLMSG_ERROR` message
(36 bytes): header `len = 36, type = NLMSG_ERROR, flags = 0, seq = 0,
pid = 0`, errno `-2` (bytes `fe ff ff ff`), then the embedded copy of the
original request header (`len = 36, type = 0x23, flags = REQUEST|ACK,
seq = 1, pid = 0`). -/
def errBuf : Nat → Nat := fun i =>
  [36, 0, 0, 0, 2, 0, 0, 0, 0, 0, 0, 0, 0, 0, 0, 0,
   254, 255, 255, 255,
   36, 0, 0, 0, 35, 0, 5, 0, 1, 0, 0, 0, 0, 0, 0, 0].getD i 0

/-- C3 counterexample: on a buffer whose content is the single
`NLMSG_ERROR` message of `errBuf` with errno `-2`, the first
`PartIterator::next` yields `OsError(2)` — but the iterator does yield a
further item: the errno < 0 path leaves the cursor right after the errno,
so the next poll parses the embedded request-header copy as a message
header and emits `Truncated`, refuting «no further items». -/
theorem nlmsg_error_negative_counterexample :
    (partNext (.Generic 35) [] { buf := errBuf, size := 36, pos := 0 }).1 =
      .item (.error (.OsError 2)) ∧
    (partNext (.Generic 35) [] { buf := errBuf, size := 36, pos := 0 }).2.1.pos = 20 ∧
    (partNext (.Generic 35) []
        (partNext (.Generic 35) [] { buf := errBuf, size := 36, pos := 0 }).2.1).1 =
      .item (.error .Truncated) := by
  refine ⟨?_, ?_, ?_⟩ <;> decide

/-- C3 amended: for a buffer positioned on an `NLMSG_ERROR` message (its
`nlmsg_len` within bounds): if the embedded errno is negative the
iterator yields exactly one `OsError(|errno|)` item and leaves the cursor
immediately after the errno — the embedded request-header copy is *not*
skipped, so iteration does not stop there; if the errno is 0 (an ack) the
iterator yields no item, skipping past the errno and the embedded copy of
the original request header, so a message following the ack starts right
at the new cursor. -/
theorem nlmsg_error_handling (mt : NetlinkTypeM) (incoming : List (Option (List Nat)))
    (st : RecvState)
    (hsz : st.pos + nlmsghdrSize ≤ st.size)
    (hlen : readU32 st.buf st.pos ≤ st.size - st.pos)
    (htype : readU16 st.buf (st.pos + 4) = NLMSG_ERROR) :
    (2147483648 ≤ readU32 st.buf (st.pos + nlmsghdrSize) →
      partNext mt incoming st =
        (.item (.error (.OsError (4294967296 - readU32 st.buf (st.pos + nlmsghdrSize)))),
         { st with pos := st.pos + nlmsghdrSize + 4 }, incoming)) ∧
    (readU32 st.buf (st.pos + nlmsghdrSize) = 0 →
      partNext mt incoming st =
        (.stop, { st with pos := st.pos + nlmsghdrSize + 4 + nlmsghdrSize }, incoming)) := by
  constructor
  · intro hneg
    unfold partNext
    rw [if_neg (by omega)]
    simp only [decodeNlMsgHdr]
    rw [if_neg (by omega), if_pos htype, if_pos hneg]
  · intro hzero
    unfold partNext
    rw [if_neg (by omega)]
    simp only [decodeNlMsgHdr]
    rw [if_neg (by omega), if_pos htype, if_neg (by omega)]

/-- A concrete ack buffer: single `NLMSG_ERROR` message with errno 0. -/
def ackBuf : Nat → Nat := fun i =>
  [36, 0, 0, 0, 2, 0, 0, 0, 0, 0, 0, 0, 0, 0, 0, 0,
   0, 0, 0, 0,
   36, 0, 0, 0, 35, 0, 5, 0, 1, 0, 0, 0, 0, 0, 0, 0].getD i 0

theorem nlmsg_error_handling_witness :
    partNext (.Generic 35) [] { buf := ackBuf, size := 36, pos := 0 } =
      (.stop, { ({ buf := ackBuf, size := 36, pos := 0 } : RecvState) with
                  pos := 0 + nlmsghdrSize + 4 + nlmsghdrSize }, []) :=
  (nlmsg_error_handling (.Generic 35) [] { buf := ackBuf, size := 36, pos := 0 }
    (by decide) (by decide) (by decide)).2 (by decide)

/-- C4 counterexample: a second consecutive truncation at the
header-read step does not yield a `Truncated` error — the iterator just
issues another blocking `recvfrom`.  Starting from an empty buffer with
one 8-byte datagram queued, the first truncation refills, the second
truncation finds no more data, and the outcome is a blocked receive, not
`Err(Truncated)`. -/
theorem truncation_retry_counterexample :
    (partNext (.Generic 35) [some [1, 2, 3, 4, 5, 6, 7, 8]]
        { buf := fun _ => 0, size := 0, pos := 0 }).1 = .blocked ∧
    (partNext (.Generic 35) [some [1, 2, 3, 4, 5, 6, 7, 8]]
        { buf := fun _ => 0, size := 0, pos := 0 }).1 ≠ .item (.error .Truncated) := by
  constructor <;> decide

/-- C4 amended: (a) when the cursor plus the `nlmsghdr` size exceeds the
buffer size, the iterator performs one blocking `recvfrom` refill and
restarts from offset 0 — and on a second consecutive truncation it simply
repeats this (blocking again when no data is available) instead of
returning a `Truncated` error; (b) when a decoded header's `nlmsg_len`
exceeds the bytes remaining, the iterator emits `Truncated` and parks the
cursor at the buffer end so iteration stops. -/
theorem partIterator_truncation_behaviour (mt : NetlinkTypeM)
    (incoming : List (Option (List Nat))) (st : RecvState) :
    (∀ d rest, st.pos + nlmsghdrSize > st.size → incoming = some d :: rest →
      partNext mt incoming st =
        partNext mt rest { buf := refillBuf st.buf d, size := d.length, pos := 0 }) ∧
    (st.pos + nlmsghdrSize > st.size → incoming = [] →
      partNext mt incoming st = (.blocked, { st with pos := 0 }, [])) ∧
    (st.pos + nlmsghdrSize ≤ st.size → st.size - st.pos < readU32 st.buf st.pos →
      partNext mt incoming st =
        (.item (.error .Truncated), { st with pos := st.size }, incoming)) := by
  refine ⟨?_, ?_, ?_⟩
  · intro d rest h hin
    subst hin
    conv_lhs => unfold partNext
    rw [if_pos h]
  · intro h hin
    subst hin
    unfold partNext
    rw [if_pos h]
  · intro h hbig
    unfold partNext
    rw [if_neg (by omega)]
    simp only [decodeNlMsgHdr]
    rw [if_pos (by omega)]

/-- A buffer whose single header declares `nlmsg_len = 100` with only 16
bytes available. -/
def longBuf : Nat → Nat := fun i =>
  [100, 0, 0, 0, 35, 0, 5, 0, 1, 0, 0, 0, 0, 0, 0, 0].getD i 0

theorem partIterator_truncation_behaviour_witness :
    partNext (.Generic 35) [] { buf := longBuf, size := 16, pos := 0 } =
      (.item (.error .Truncated),
       { ({ buf := longBuf, size := 16, pos := 0 } : RecvState) with pos := 16 }, []) :=
  (partIterator_truncation_behaviour (.Generic 35) []
    { buf := longBuf, size := 16, pos := 0 }).2.2 (by decide) (by decide)

/-! ## Round-trip machinery: byte-level lemmas -/

theorem nlattrSize_eq : nlattrSize = 4 := rfl

theorem byteAt_frame (bs : List Nat) (buf : Nat → Nat) (p x : Nat)
    (h : x < p ∨ p + bs.length ≤ x) : byteAt (writeBytes buf p bs) x = byteAt buf x := by
  unfold byteAt
  rw [writeBytes_frame bs buf p x h]

theorem readU16_writeBytes_outside (bs : List Nat) (buf : Nat → Nat) (p x : Nat)
    (h : x + 2 ≤ p ∨ p + bs.length ≤ x) :
    readU16 (writeBytes buf p bs) x = readU16 buf x := by
  unfold readU16
  rw [byteAt_frame bs buf p x (by omega), byteAt_frame bs buf p (x + 1) (by omega)]

theorem readU16_congr {g f : Nat → Nat} {q : Nat}
    (h0 : g q = f q) (h1 : g (q + 1) = f (q + 1)) : readU16 g q = readU16 f q := by
  unfold readU16 byteAt
  rw [h0, h1]

theorem bytesFrom_congr {g f : Nat → Nat} {q n : Nat}
    (h : ∀ i, i < n → g (q + i) = f (q + i)) : bytesFrom g q n = bytesFrom f q n := by
  unfold bytesFrom byteAt
  apply List.map_congr_left
  intro i hi
  rw [h i (List.mem_range.mp hi)]

theorem bytesFrom_writeBytes (bs : List Nat) (buf : Nat → Nat) (p : Nat) :
    bytesFrom (writeBytes buf p bs) p bs.length = bs.map (· % 256) := by
  apply List.ext_getElem
  · simp [bytesFrom]
  · intro i h1 h2
    simp only [bytesFrom, List.getElem_map, List.getElem_range]
    simp only [List.length_map] at h2
    have hw := writeBytes_getD bs buf p i h2
    unfold byteAt
    rw [hw]
    have hg : bs.getD i 0 = bs[i] := by
      simp [List.getD_eq_getElem?_getD, List.getElem?_eq_getElem h2]
    rw [hg]
    exact Nat.mod_mod_of_dvd _ (dvd_refl 256)

theorem map_mod_id {l : List Nat} (h : ∀ b ∈ l, b < 256) : l.map (· % 256) = l := by
  conv_rhs => rw [← List.map_id l]
  apply List.map_congr_left
  intro b hb
  simp [Nat.mod_eq_of_lt (h b hb)]

/-! ## Round-trip machinery: `attrPut` specification -/

theorem attrPut_pos (t : Nat) (bs : List Nat) (s : BuildState) :
    (attrPut t bs s).pos = s.pos + nlattrSize + nl_align_length bs.length := rfl

theorem attrPut_frame (t : Nat) (bs : List Nat) (s : BuildState) (x : Nat)
    (h : x < s.pos ∨ s.pos + nlattrSize + nl_align_length bs.length ≤ x) :
    (attrPut t bs s).buf x = s.buf x := by
  simp only [attrPut]
  have hle := nl_align_length_ge bs.length
  rw [writeBytes_frame _ _ _ _ (by rw [nlattrSize_eq] at *; omega)]
  rw [writeBytes_frame _ _ _ _ (by simp [le16]; rw [nlattrSize_eq] at *; omega)]

theorem attrPut_header (t : Nat) (bs : List Nat) (s : BuildState) :
    readU16 (attrPut t bs s).buf s.pos = (nlattrSize + bs.length) % 65536 ∧
    readU16 (attrPut t bs s).buf (s.pos + 2) = t % 65536 := by
  simp only [attrPut]
  have h1 := readU16_writeBytes_le16_pair s.buf s.pos (nlattrSize + bs.length) t
  constructor
  · rw [readU16_writeBytes_outside _ _ _ _ (by rw [nlattrSize_eq]; omega), h1.1]
  · rw [readU16_writeBytes_outside _ _ _ _ (by rw [nlattrSize_eq]; omega), h1.2]

theorem attrPut_payload (t : Nat) (bs : List Nat) (s : BuildState) :
    bytesFrom (attrPut t bs s).buf (s.pos + nlattrSize) bs.length = bs.map (· % 256) := by
  simp only [attrPut]
  exact bytesFrom_writeBytes bs _ (s.pos + nlattrSize)

/-! ## Round-trip machinery: one-record unfoldings of `parseAttrs` -/

theorem parseAttrs_done {buf : Nat → Nat} {pos e : Nat}
    (h : attrNext buf pos e = .done) : parseAttrs buf pos e = some [] := by
  unfold parseAttrs
  split <;> simp_all

theorem parseAttrs_panicked {buf : Nat → Nat} {pos e : Nat}
    (h : attrNext buf pos e = .panicked) : parseAttrs buf pos e = none := by
  unfold parseAttrs
  split <;> simp_all

theorem parseAttrs_yield {buf : Nat → Nat} {pos e : Nat} {a : RawAttr} {nx : Nat}
    (h : attrNext buf pos e = .yield a nx) :
    parseAttrs buf pos e = (parseAttrs buf nx e).map (a :: ·) := by
  conv_lhs => unfold parseAttrs
  split <;> simp_all

theorem attrNext_done_of (buf : Nat → Nat) (pos e : Nat) (h : e < pos + nlattrSize) :
    attrNext buf pos e = .done := by
  unfold attrNext
  rw [if_pos (by omega)]

theorem attrNext_yield_of {buf : Nat → Nat} {pos e len ty : Nat}
    (hlen : readU16 buf pos = len) (hty : readU16 buf (pos + 2) = ty)
    (h2 : pos + nlattrSize + nl_align_length (len - nlattrSize) ≤ e) :
    attrNext buf pos e =
      .yield (mkAttr len ty (pos + nlattrSize))
        (pos + nlattrSize + nl_align_length (len - nlattrSize)) := by
  subst hlen
  subst hty
  unfold attrNext
  rw [if_neg (by rw [nlattrSize_eq] at *; omega), if_neg (by omega)]

/-! ## Round-trip machinery: integer decoding -/

theorem fromAttrU16_le16 (k : Nat) (hk : k < 65536) :
    fromAttrU16 ((le16 k).map (· % 256)) = some k := by
  simp [fromAttrU16, le16, List.getD]
  omega

theorem fromAttrU8_single (m : Nat) (hm : m < 256) :
    fromAttrU8 ([m].map (· % 256)) = some m := by
  simp [fromAttrU8, List.getD]
  omega

theorem parse_endpoint_v4 (port : Nat) (o : List Nat)
    (hp : port < 65536) (ho : o.length = 4) (hob : ∀ b ∈ o, b < 256) :
    parse_endpoint ((sockaddr_in_bytes port o).map (· % 256)) = some (.v4 o, port) := by
  rcases o with _ | ⟨a, _ | ⟨b, _ | ⟨c, _ | ⟨d, _ | ⟨x, t⟩⟩⟩⟩⟩ <;> simp at ho
  have ha : a % 256 = a := Nat.mod_eq_of_lt (hob a (by simp))
  have hb : b % 256 = b := Nat.mod_eq_of_lt (hob b (by simp))
  have hc : c % 256 = c := Nat.mod_eq_of_lt (hob c (by simp))
  have hd : d % 256 = d := Nat.mod_eq_of_lt (hob d (by simp))
  norm_num [parse_endpoint, sockaddr_in_bytes, le16, be16, AF_INET, AF_INET6,
    List.getD, ha, hb, hc, hd]
  have ha2 : a < 256 := hob a (by simp)
  have hb2 : b < 256 := hob b (by simp)
  have hc2 : c < 256 := hob c (by simp)
  have hd2 : d < 256 := hob d (by simp)
  constructor
  · have h1 : (a + 256 * b + 65536 * c + 16777216 * d) % 256 = a := by omega
    have h2 : (a + 256 * b + 65536 * c + 16777216 * d) / 256 % 256 = b := by omega
    have h3 : (a + 256 * b + 65536 * c + 16777216 * d) / 65536 % 256 = c := by omega
    have h4 : (a + 256 * b + 65536 * c + 16777216 * d) / 16777216 % 256 = d := by omega
    rw [swap32, h1, h2, h3, h4]
    clear h1 h2 h3 h4
    have k1 : (a * 16777216 + b * 65536 + c * 256 + d) / 16777216 % 256 = a := by omega
    have k2 : (a * 16777216 + b * 65536 + c * 256 + d) / 65536 % 256 = b := by omega
    have k3 : (a * 16777216 + b * 65536 + c * 256 + d) / 256 % 256 = c := by omega
    have k4 : (a * 16777216 + b * 65536 + c * 256 + d) % 256 = d := by omega
    simp only [ipv4FromU32, k1, k2, k3, k4]
  · have p1 : (port / 256 % 256 + 256 * (port % 256)) % 256 = port / 256 % 256 := by omega
    have p2 : (port / 256 % 256 + 256 * (port % 256)) / 256 % 256 = port % 256 := by omega
    rw [swap16, p1, p2]
    omega

theorem parse_endpoint_v6 (port : Nat) (o : List Nat)
    (hp : port < 65536) (ho : o.length = 16) (hob : ∀ b ∈ o, b < 256) :
    parse_endpoint ((sockaddr_in6_bytes port o).map (· % 256)) = some (.v6 o, port) := by
  have hmap : (sockaddr_in6_bytes port o).map (· % 256) =
      [10, 0, port / 256 % 256, port % 256, 0, 0, 0, 0] ++ o ++ [0, 0, 0, 0] := by
    simp only [sockaddr_in6_bytes, le16, le32, be16, AF_INET6, List.cons_append,
      List.nil_append, List.map_cons, List.map_append, map_mod_id hob]
    norm_num
  rw [hmap]
  have hlen : ([10, 0, port / 256 % 256, port % 256, 0, 0, 0, 0] ++ o ++ [0, 0, 0, 0]).length = 28 := by
    simp [ho]
  simp only [parse_endpoint, hlen]
  norm_num [List.getD]
  refine ⟨by decide, ?_, ?_⟩
  · rw [← ho, List.take_left]
  · have p1 : (port / 256 % 256 + 256 * (port % 256)) % 256 = port / 256 % 256 := by omega
    have p2 : (port / 256 % 256 + 256 * (port % 256)) / 256 % 256 = port % 256 := by omega
    rw [swap16, p1, p2]
    omega

/-! ## Well-formedness of a `Peer` for the round trip -/

/-- The octet list underlying either `IpAddr` variant. -/
def octets : IpAddrM → List Nat
  | .v4 o => o
  | .v6 o => o

/-- A well-formed address: 4 (v4) or 16 (v6) octets, each a byte. -/
def ipWF : IpAddrM → Prop
  | .v4 o => o.length = 4 ∧ ∀ b ∈ o, b < 256
  | .v6 o => o.length = 16 ∧ ∀ b ∈ o, b < 256

instance (ip : IpAddrM) : Decidable (ipWF ip) :=
  match ip with
  | .v4 _ => inferInstanceAs (Decidable (_ ∧ _))
  | .v6 _ => inferInstanceAs (Decidable (_ ∧ _))

/-- A well-formed optional endpoint: well-formed address, 16-bit port. -/
def epWF : Option (IpAddrM × Nat) → Prop
  | none => True
  | some (ip, port) => ipWF ip ∧ port < 65536

instance (ep : Option (IpAddrM × Nat)) : Decidable (epWF ep) :=
  match ep with
  | none => inferInstanceAs (Decidable True)
  | some (_, _) => inferInstanceAs (Decidable (_ ∧ _))

/-- A well-formed optional keepalive: a nonzero u16 (`Peer::new` filters
out 0, so `Some(0)` cannot round-trip — the claim grants this). -/
def kaWF : Option Nat → Prop
  | none => True
  | some k => k < 65536 ∧ k ≠ 0

instance (ka : Option Nat) : Decidable (kaWF ka) :=
  match ka with
  | none => inferInstanceAs (Decidable True)
  | some _ => inferInstanceAs (Decidable (_ ∧ _))

/-- A well-formed peer: 32-byte key, well-formed endpoint, well-formed
allowed-ip entries with byte-sized masks, well-formed keepalive. -/
def PeerWF (p : PeerM) : Prop :=
  p.peer_key.length = 32 ∧ (∀ b ∈ p.peer_key, b < 256) ∧
  epWF p.endpoint ∧ (∀ im ∈ p.allowed_ips, ipWF im.1 ∧ im.2 < 256) ∧
  kaWF p.keepalive

instance (p : PeerM) : Decidable (PeerWF p) :=
  inferInstanceAs (Decidable (_ ∧ _))

/-! ## Slot arithmetic -/

theorem attrSlot_def (n : Nat) : attrSlot n = nlattrSize + nl_align_length n := rfl

theorem attrSlot_mod4 (n : Nat) : attrSlot n % 4 = 0 := by
  unfold attrSlot nlattrSize nl_align_length
  omega

theorem ipSlot_eq (ip : IpAddrM) :
    ipSlot ip = nlattrSize + attrSlot 2 + attrSlot (octets ip).length + attrSlot 1 := by
  cases ip <;> rfl

theorem ipSlot_mod4 (ip : IpAddrM) : ipSlot ip % 4 = 0 := by
  rw [ipSlot_eq]
  have h1 := attrSlot_mod4 2
  have h2 := attrSlot_mod4 (octets ip).length
  have h3 := attrSlot_mod4 1
  unfold nlattrSize at *
  omega

theorem ipSlot_ge (ip : IpAddrM) : 4 ≤ ipSlot ip := by
  rw [ipSlot_eq]
  unfold nlattrSize
  omega

theorem ipsSlot_mod4 (l : List (IpAddrM × Nat)) : ipsSlot l % 4 = 0 := by
  induction l with
  | nil => rfl
  | cons im rest ih =>
    obtain ⟨ip, m⟩ := im
    have := ipSlot_mod4 ip
    unfold ipsSlot
    omega

theorem ipSlot_wf_v4 (o : List Nat) (ho : o.length = 4) : ipSlot (.v4 o) = 28 := by
  show nlattrSize + attrSlot 2 + attrSlot o.length + attrSlot 1 = 28
  rw [ho]
  rfl

theorem ipSlot_wf_v6 (o : List Nat) (ho : o.length = 16) : ipSlot (.v6 o) = 40 := by
  show nlattrSize + attrSlot 2 + attrSlot o.length + attrSlot 1 = 40
  rw [ho]
  rfl

/-! ## Flat attribute runs (`putAttrs`): the consecutive `attr`/`attr_bytes`
calls at the end of `set_peer` (optional ENDPOINT, optional keepalive) -/

def putAttrs : List (Nat × List Nat) → BuildState → BuildState
  | [], s => s
  | (t, bs) :: rest, s => putAttrs rest (attrPut t bs s)

def pairsSlot : List (Nat × List Nat) → Nat
  | [] => 0
  | (_, bs) :: rest => attrSlot bs.length + pairsSlot rest

/-- The attribute views the iterator produces over a flat attribute run. -/
def pairViews (base : Nat) : List (Nat × List Nat) → List RawAttr
  | [] => []
  | (t, bs) :: rest =>
      mkAttr (nlattrSize + bs.length) t (base + nlattrSize) ::
        pairViews (base + attrSlot bs.length) rest

/-- The payload bytes of a flat attribute run, as read back from `g`. -/
def PairPayloads (g : Nat → Nat) (base : Nat) : List (Nat × List Nat) → Prop
  | [] => True
  | (_, bs) :: rest =>
      bytesFrom g (base + nlattrSize) bs.length = bs.map (· % 256) ∧
        PairPayloads g (base + attrSlot bs.length) rest

theorem putAttrs_pos (l : List (Nat × List Nat)) (s : BuildState) :
    (putAttrs l s).pos = s.pos + pairsSlot l := by
  induction l generalizing s with
  | nil => simp [putAttrs, pairsSlot]
  | cons pr rest ih =>
    obtain ⟨t, bs⟩ := pr
    simp only [putAttrs, pairsSlot]
    rw [ih, attrPut_pos, attrSlot_def]
    omega

theorem putAttrs_frame (l : List (Nat × List Nat)) (s : BuildState) (x : Nat)
    (h : x < s.pos ∨ s.pos + pairsSlot l ≤ x) : (putAttrs l s).buf x = s.buf x := by
  induction l generalizing s with
  | nil => rfl
  | cons pr rest ih =>
    obtain ⟨t, bs⟩ := pr
    simp only [putAttrs]
    have hslot : (attrPut t bs s).pos = s.pos + attrSlot bs.length := by
      rw [attrPut_pos, attrSlot_def]
      omega
    have h4 : nlattrSize ≤ attrSlot bs.length := by
      unfold attrSlot nlattrSize
      omega
    rw [ih (attrPut t bs s) (by rw [hslot]; simp only [pairsSlot] at h; omega)]
    apply attrPut_frame
    simp only [pairsSlot] at h
    rw [attrSlot_def] at *
    omega

theorem putAttrs_parse (l : List (Nat × List Nat)) :
    ∀ (s : BuildState) (g : Nat → Nat),
      (∀ pr ∈ l, nlattrSize + pr.2.length < 65536 ∧ pr.1 < 65536) →
      (∀ x, s.pos ≤ x → x < s.pos + pairsSlot l → g x = (putAttrs l s).buf x) →
      parseAttrs g s.pos (s.pos + pairsSlot l) = some (pairViews s.pos l) := by
  induction l with
  | nil =>
    intro s g _ _
    exact parseAttrs_done (attrNext_done_of g s.pos (s.pos + pairsSlot []) (by
      simp [pairsSlot, nlattrSize]))
  | cons pr rest ih =>
    obtain ⟨t, bs⟩ := pr
    intro s g hb hag
    have hbs := hb (t, bs) (by simp)
    have hslot : nlattrSize + bs.length ≤ attrSlot bs.length := by
      rw [attrSlot_def]
      have := nl_align_length_ge bs.length
      omega
    have h4 : (4 : Nat) ≤ attrSlot bs.length := by
      rw [attrSlot_def, nlattrSize_eq]
      omega
    have hpos1 : (attrPut t bs s).pos = s.pos + attrSlot bs.length := by
      rw [attrPut_pos, attrSlot_def]
      omega
    have htotal : pairsSlot ((t, bs) :: rest) = attrSlot bs.length + pairsSlot rest := rfl
    -- g agrees with (attrPut t bs s).buf on the first record
    have hg1 : ∀ x, s.pos ≤ x → x < s.pos + attrSlot bs.length →
        g x = (attrPut t bs s).buf x := by
      intro x hx1 hx2
      rw [hag x hx1 (by rw [htotal]; omega)]
      show (putAttrs rest (attrPut t bs s)).buf x = _
      exact putAttrs_frame rest _ x (Or.inl (by omega))
    have hlen : readU16 g s.pos = nlattrSize + bs.length := by
      rw [readU16_congr (hg1 s.pos (by omega) (by omega)) (hg1 (s.pos + 1) (by omega) (by omega))]
      rw [(attrPut_header t bs s).1]
      exact Nat.mod_eq_of_lt hbs.1
    have hty : readU16 g (s.pos + 2) = t := by
      have e3 : s.pos + 2 + 1 = s.pos + 3 := by omega
      rw [readU16_congr (hg1 (s.pos + 2) (by omega) (by omega))
        (by rw [e3]; exact hg1 (s.pos + 3) (by omega) (by omega))]
      rw [(attrPut_header t bs s).2]
      exact Nat.mod_eq_of_lt hbs.2
    have hsub : nlattrSize + bs.length - nlattrSize = bs.length := by omega
    have hals : attrSlot bs.length = nlattrSize + nl_align_length bs.length := attrSlot_def _
    have hnext : s.pos + nlattrSize + nl_align_length bs.length = s.pos + attrSlot bs.length := by
      omega
    have hstep := attrNext_yield_of hlen hty (e := s.pos + pairsSlot ((t, bs) :: rest)) (by
      rw [hsub, htotal]
      omega)
    rw [hsub, hnext] at hstep
    rw [parseAttrs_yield hstep]
    have hagrest : ∀ x, (attrPut t bs s).pos ≤ x →
        x < (attrPut t bs s).pos + pairsSlot rest → g x = (putAttrs rest (attrPut t bs s)).buf x := by
      intro x hx1 hx2
      rw [hpos1] at hx1 hx2
      exact hag x (by omega) (by rw [htotal]; omega)
    have hrest := ih (attrPut t bs s) g (fun pr hpr => hb pr (by simp [hpr])) hagrest
    rw [hpos1] at hrest
    have he : s.pos + attrSlot bs.length + pairsSlot rest = s.pos + pairsSlot ((t, bs) :: rest) := by
      rw [htotal]
      omega
    rw [he] at hrest
    rw [hrest]
    rfl

theorem putAttrs_payloads (l : List (Nat × List Nat)) :
    ∀ (s : BuildState) (g : Nat → Nat),
      (∀ x, s.pos ≤ x → x < s.pos + pairsSlot l → g x = (putAttrs l s).buf x) →
      PairPayloads g s.pos l := by
  induction l with
  | nil => intro s g _; trivial
  | cons pr rest ih =>
    obtain ⟨t, bs⟩ := pr
    intro s g hag
    have hslot : nlattrSize + bs.length ≤ attrSlot bs.length := by
      rw [attrSlot_def]
      have := nl_align_length_ge bs.length
      omega
    have hpos1 : (attrPut t bs s).pos = s.pos + attrSlot bs.length := by
      rw [attrPut_pos, attrSlot_def]
      omega
    have htotal : pairsSlot ((t, bs) :: rest) = attrSlot bs.length + pairsSlot rest := rfl
    have hg1 : ∀ x, s.pos ≤ x → x < s.pos + attrSlot bs.length →
        g x = (attrPut t bs s).buf x := by
      intro x hx1 hx2
      rw [hag x hx1 (by rw [htotal]; omega)]
      show (putAttrs rest (attrPut t bs s)).buf x = _
      exact putAttrs_frame rest _ x (Or.inl (by omega))
    constructor
    · rw [bytesFrom_congr (fun i hi => hg1 (s.pos + nlattrSize + i) (by omega) (by omega))]
      exact attrPut_payload t bs s
    · have hagrest : ∀ x, (attrPut t bs s).pos ≤ x →
          x < (attrPut t bs s).pos + pairsSlot rest →
          g x = (putAttrs rest (attrPut t bs s)).buf x := by
        intro x hx1 hx2
        rw [hpos1] at hx1 hx2
        exact hag x (by omega) (by rw [htotal]; omega)
      have := ih (attrPut t bs s) g hagrest
      rw [hpos1] at this
      exact this

/-- The (type, payload) pairs `add_ip` appends inside one allowed-ip nest. -/
def ipPairs : IpAddrM → Nat → List (Nat × List Nat)
  | .v4 o, m => [(wgallowedipFAMILY, le16 AF_INET), (wgallowedipIPADDR, o), (wgallowedipCIDR_MASK, [m])]
  | .v6 o, m => [(wgallowedipFAMILY, le16 AF_INET6), (wgallowedipIPADDR, o), (wgallowedipCIDR_MASK, [m])]

theorem add_ip_eq_putAttrs (ip : IpAddrM) (m : Nat) (s : BuildState) :
    add_ip ip m s = putAttrs (ipPairs ip m) s := by
  cases ip <;> rfl

theorem pairsSlot_ipPairs (ip : IpAddrM) (m : Nat) :
    nlattrSize + pairsSlot (ipPairs ip m) = ipSlot ip := by
  cases ip <;> simp [ipPairs, pairsSlot, ipSlot_eq, octets, le16] <;> omega

theorem allowed_ip_pairs_loop (af : Nat) (haf : af < 256) (o : List Nat) (holen : o.length < 60000)
    (m : Nat) (hm : m < 256) (s : BuildState) (g : Nat → Nat)
    (hag : ∀ x, s.pos ≤ x →
      x < s.pos + pairsSlot [(wgallowedipFAMILY, le16 af), (wgallowedipIPADDR, o), (wgallowedipCIDR_MASK, [m])] →
      g x = (putAttrs [(wgallowedipFAMILY, le16 af), (wgallowedipIPADDR, o), (wgallowedipCIDR_MASK, [m])] s).buf x) :
    parseAttrs g s.pos
        (s.pos + pairsSlot [(wgallowedipFAMILY, le16 af), (wgallowedipIPADDR, o), (wgallowedipCIDR_MASK, [m])]) =
      some (pairViews s.pos [(wgallowedipFAMILY, le16 af), (wgallowedipIPADDR, o), (wgallowedipCIDR_MASK, [m])]) ∧
    allowedIpLoop g
        (pairViews s.pos [(wgallowedipFAMILY, le16 af), (wgallowedipIPADDR, o), (wgallowedipCIDR_MASK, [m])])
        none none none = some (some (o.map (· % 256)), some af, some m) := by
  have hb : ∀ pr ∈ [(wgallowedipFAMILY, le16 af), (wgallowedipIPADDR, o), (wgallowedipCIDR_MASK, [m])],
      nlattrSize + pr.2.length < 65536 ∧ pr.1 < 65536 := by
    intro pr hpr
    simp [le16, wgallowedipFAMILY, wgallowedipIPADDR, wgallowedipCIDR_MASK] at hpr
    rcases hpr with h | h | h <;> subst h <;> simp [le16, nlattrSize, wgallowedipFAMILY,
      wgallowedipIPADDR, wgallowedipCIDR_MASK] <;> omega
  refine ⟨putAttrs_parse _ s g hb hag, ?_⟩
  have hpay := putAttrs_payloads _ s g hag
  simp only [PairPayloads, le16, List.length_cons, List.length_nil] at hpay
  obtain ⟨hp1, hp2, hp3, -⟩ := hpay
  norm_num at hp1 hp2 hp3
  simp only [pairViews, le16, List.length_cons, List.length_nil]
  norm_num
  have hv1 : mkAttr (nlattrSize + 2) wgallowedipFAMILY (s.pos + nlattrSize) =
      ⟨false, wgallowedipFAMILY, s.pos + nlattrSize, s.pos + nlattrSize + 2⟩ := by
    simp [mkAttr, nlattrSize, wgallowedipFAMILY, NLA_F_NESTED] <;> decide
  have hv2 : mkAttr (nlattrSize + o.length) wgallowedipIPADDR (s.pos + attrSlot 2 + nlattrSize) =
      ⟨false, wgallowedipIPADDR, s.pos + attrSlot 2 + nlattrSize,
        s.pos + attrSlot 2 + nlattrSize + o.length⟩ := by
    simp [mkAttr, nlattrSize, wgallowedipIPADDR, NLA_F_NESTED] <;> decide
  have hv3 : mkAttr (nlattrSize + 1) wgallowedipCIDR_MASK
        (s.pos + attrSlot 2 + attrSlot o.length + nlattrSize) =
      ⟨false, wgallowedipCIDR_MASK, s.pos + attrSlot 2 + attrSlot o.length + nlattrSize,
        s.pos + attrSlot 2 + attrSlot o.length + nlattrSize + 1⟩ := by
    simp [mkAttr, nlattrSize, wgallowedipCIDR_MASK, NLA_F_NESTED] <;> decide
  rw [hv1, hv2, hv3]
  simp only [allowedIpLoop, get_bytes, wgallowedipFAMILY, wgallowedipIPADDR, wgallowedipCIDR_MASK]
  norm_num
  refine ⟨hp2, ?_, ?_⟩
  · rw [hp1]
    simp [fromAttrU16, List.getD]
    omega
  · rw [hp3]
    simp [fromAttrU8, List.getD]
    omega

theorem parse_allowed_ip_of_add_ip (ip : IpAddrM) (m pt : Nat) (s : BuildState) (g : Nat → Nat)
    (hwf : ipWF ip) (hm : m < 256)
    (hag : ∀ x, s.pos ≤ x → x < (add_ip ip m s).pos → g x = (add_ip ip m s).buf x) :
    parse_allowed_ip g
      { nested := true, ptype := pt, pstart := s.pos, pend := (add_ip ip m s).pos } =
      some (ip, m) := by
  rw [add_ip_eq_putAttrs] at hag ⊢
  rw [putAttrs_pos] at hag ⊢
  cases ip with
  | v4 o =>
    obtain ⟨ho, hob⟩ := hwf
    have hip : ipPairs (IpAddrM.v4 o) m =
        [(wgallowedipFAMILY, le16 AF_INET), (wgallowedipIPADDR, o), (wgallowedipCIDR_MASK, [m])] := rfl
    rw [hip] at hag ⊢
    have hl := allowed_ip_pairs_loop AF_INET (by decide) o (by omega) m hm s g hag
    unfold parse_allowed_ip
    simp [hl.1, hl.2, map_mod_id hob, ho]
  | v6 o =>
    obtain ⟨ho, hob⟩ := hwf
    have hip : ipPairs (IpAddrM.v6 o) m =
        [(wgallowedipFAMILY, le16 AF_INET6), (wgallowedipIPADDR, o), (wgallowedipCIDR_MASK, [m])] := rfl
    rw [hip] at hag ⊢
    have hl := allowed_ip_pairs_loop AF_INET6 (by decide) o (by omega) m hm s g hag
    unfold parse_allowed_ip
    simp [hl.1, hl.2, map_mod_id hob, ho, show AF_INET6 ≠ AF_INET from by decide]

/-! ## Nest bookkeeping lemmas -/

theorem attr_list_start_pos (s : BuildState) (t : Nat) :
    (attr_list_start s t).1.pos = s.pos + nlattrSize := rfl

theorem attr_list_start_buf (s : BuildState) (t : Nat) :
    (attr_list_start s t).1.buf = s.buf := rfl

theorem attr_list_start_info (s : BuildState) (t : Nat) :
    (attr_list_start s t).2 = { start_pos := s.pos, nla_type := t ||| NLA_F_NESTED } := rfl

theorem attr_list_end_pos (s : BuildState) (ni : NestInfo) :
    (attr_list_end s ni).pos = s.pos := rfl

theorem attr_list_end_frame (s : BuildState) (ni : NestInfo) (x : Nat)
    (h : x < ni.start_pos ∨ ni.start_pos + nlattrSize ≤ x) :
    (attr_list_end s ni).buf x = s.buf x := by
  simp only [attr_list_end]
  rw [nlattrSize_eq] at h
  exact writeBytes_frame _ _ _ _ (by
    simp only [le16, List.length_append, List.length_cons, List.length_nil]
    omega)

theorem attr_list_end_header (s : BuildState) (ni : NestInfo) :
    readU16 (attr_list_end s ni).buf ni.start_pos = (s.pos - ni.start_pos) % 65536 ∧
    readU16 (attr_list_end s ni).buf (ni.start_pos + 2) = ni.nla_type % 65536 := by
  simp only [attr_list_end]
  exact readU16_writeBytes_le16_pair s.buf ni.start_pos (s.pos - ni.start_pos) ni.nla_type

/-! ## `set_allowed_ips` specification -/

theorem ipSlot_le_40 {ip : IpAddrM} (h : ipWF ip) : ipSlot ip ≤ 40 := by
  cases ip with
  | v4 o => rw [ipSlot_wf_v4 o h.1]; omega
  | v6 o => rw [ipSlot_wf_v6 o h.1]

theorem add_ip_pos (ip : IpAddrM) (m : Nat) (s : BuildState) :
    (add_ip ip m s).pos = s.pos + (ipSlot ip - nlattrSize) := by
  rw [add_ip_eq_putAttrs, putAttrs_pos]
  have h1 := pairsSlot_ipPairs ip m
  have h2 := ipSlot_ge ip
  rw [nlattrSize_eq] at h1 ⊢
  omega

theorem set_allowed_ips_pos (ips : List (IpAddrM × Nat)) :
    ∀ s : BuildState, (set_allowed_ips ips s).pos = s.pos + ipsSlot ips := by
  induction ips with
  | nil => intro s; simp [set_allowed_ips, ipsSlot]
  | cons im rest ih =>
    obtain ⟨ip, m⟩ := im
    intro s
    show (set_allowed_ips rest (attr_list_end (add_ip ip m (attr_list_start s 0).1)
      (attr_list_start s 0).2)).pos = _
    rw [ih, attr_list_end_pos, add_ip_pos, attr_list_start_pos]
    have h1 := ipSlot_ge ip
    show _ = s.pos + (ipSlot ip + ipsSlot rest)
    rw [nlattrSize_eq]
    omega

theorem set_allowed_ips_frame (ips : List (IpAddrM × Nat)) :
    ∀ (s : BuildState) (x : Nat), x < s.pos ∨ s.pos + ipsSlot ips ≤ x →
      (set_allowed_ips ips s).buf x = s.buf x := by
  induction ips with
  | nil => intro s x _; rfl
  | cons im rest ih =>
    obtain ⟨ip, m⟩ := im
    intro s x hx
    have hge := ipSlot_ge ip
    have htot : ipsSlot ((ip, m) :: rest) = ipSlot ip + ipsSlot rest := rfl
    rw [htot] at hx
    show (set_allowed_ips rest (attr_list_end (add_ip ip m (attr_list_start s 0).1)
      (attr_list_start s 0).2)).buf x = _
    have hscpos : (attr_list_end (add_ip ip m (attr_list_start s 0).1)
        (attr_list_start s 0).2).pos = s.pos + ipSlot ip := by
      rw [attr_list_end_pos, add_ip_pos, attr_list_start_pos, nlattrSize_eq]
      omega
    have hstart : (attr_list_start s 0).2.start_pos = s.pos := rfl
    rw [ih _ x (by
      rw [hscpos]
      rcases hx with h | h
      exacts [Or.inl (by omega), Or.inr (by omega)])]
    rw [attr_list_end_frame _ _ x (by
      rw [hstart, nlattrSize_eq]
      rcases hx with h | h
      exacts [Or.inl (by omega), Or.inr (by omega)])]
    rw [add_ip_eq_putAttrs]
    have hps := pairsSlot_ipPairs ip m
    rw [nlattrSize_eq] at hps
    rw [putAttrs_frame _ _ x (by
      rw [attr_list_start_pos, nlattrSize_eq]
      rcases hx with h | h
      exacts [Or.inl (by omega), Or.inr (by omega)])]
    rfl

theorem set_allowed_ips_parse (ips : List (IpAddrM × Nat)) :
    ∀ (s : BuildState) (g : Nat → Nat),
      (∀ im ∈ ips, ipWF im.1 ∧ im.2 < 256) →
      (∀ x, s.pos ≤ x → x < s.pos + ipsSlot ips → g x = (set_allowed_ips ips s).buf x) →
      ∃ vs, parseAttrs g s.pos (s.pos + ipsSlot ips) = some vs ∧
        vs.filterMap (parse_allowed_ip g) = ips := by
  induction ips with
  | nil =>
    intro s g _ _
    refine ⟨[], parseAttrs_done (attrNext_done_of g s.pos _ ?_), rfl⟩
    show s.pos + ipsSlot [] < s.pos + nlattrSize
    rw [nlattrSize_eq]
    show s.pos + 0 < s.pos + 4
    omega
  | cons im rest ih =>
    obtain ⟨ip, m⟩ := im
    intro s g hwf hag
    have hwfip := hwf (ip, m) (by simp)
    obtain ⟨hipwf, hm2⟩ := hwfip
    have hge := ipSlot_ge ip
    have hle40 : ipSlot ip ≤ 40 := ipSlot_le_40 hipwf
    have hmod := ipSlot_mod4 ip
    have htot : ipsSlot ((ip, m) :: rest) = ipSlot ip + ipsSlot rest := rfl
    have hp1pos : (attr_list_start s 0).1.pos = s.pos + 4 := by
      rw [attr_list_start_pos, nlattrSize_eq]
    have hsbpos : (add_ip ip m (attr_list_start s 0).1).pos = s.pos + ipSlot ip := by
      rw [add_ip_pos, hp1pos, nlattrSize_eq]
      omega
    have hscpos : (attr_list_end (add_ip ip m (attr_list_start s 0).1)
        (attr_list_start s 0).2).pos = s.pos + ipSlot ip := by
      rw [attr_list_end_pos, hsbpos]
    have hunf : set_allowed_ips ((ip, m) :: rest) s =
        set_allowed_ips rest (attr_list_end (add_ip ip m (attr_list_start s 0).1)
          (attr_list_start s 0).2) := rfl
    set sc := attr_list_end (add_ip ip m (attr_list_start s 0).1) (attr_list_start s 0).2 with hsc
    have hgc : ∀ x, s.pos ≤ x → x < s.pos + ipSlot ip → g x = sc.buf x := by
      intro x h1 h2
      rw [hag x h1 (by rw [htot]; omega), hunf]
      exact set_allowed_ips_frame rest sc x (Or.inl (by rw [hscpos]; omega))
    have hh := attr_list_end_header (add_ip ip m (attr_list_start s 0).1) (attr_list_start s 0).2
    have hstart : (attr_list_start s 0).2.start_pos = s.pos := rfl
    have hnty : (attr_list_start s 0).2.nla_type = 32768 := by
      rw [attr_list_start_info]
      rfl
    rw [hstart] at hh
    have hlenv : readU16 g s.pos = ipSlot ip := by
      rw [readU16_congr (hgc s.pos (le_refl _) (by omega)) (hgc (s.pos + 1) (by omega) (by omega))]
      rw [hh.1, hsbpos, Nat.add_sub_cancel_left]
      exact Nat.mod_eq_of_lt (by omega)
    have htyv : readU16 g (s.pos + 2) = 32768 := by
      have e3 : s.pos + 2 + 1 = s.pos + 3 := by omega
      rw [readU16_congr (hgc (s.pos + 2) (by omega) (by omega))
        (by rw [e3]; exact hgc (s.pos + 3) (by omega) (by omega))]
      rw [hh.2, hnty]
    have halign : nl_align_length (ipSlot ip - nlattrSize) = ipSlot ip - nlattrSize := by
      apply nl_align_length_of_aligned
      rw [nlattrSize_eq]
      omega
    have hstep := attrNext_yield_of hlenv htyv (e := s.pos + ipsSlot ((ip, m) :: rest)) (by
      rw [halign, htot, nlattrSize_eq]
      omega)
    rw [halign] at hstep
    have hnx : s.pos + nlattrSize + (ipSlot ip - nlattrSize) = s.pos + ipSlot ip := by
      rw [nlattrSize_eq]
      omega
    rw [hnx] at hstep
    rw [parseAttrs_yield hstep]
    have hagrest : ∀ x, sc.pos ≤ x → x < sc.pos + ipsSlot rest →
        g x = (set_allowed_ips rest sc).buf x := by
      intro x h1 h2
      rw [hscpos] at h1 h2
      rw [hag x (by omega) (by rw [htot]; omega), hunf]
    obtain ⟨vs, hvs1, hvs2⟩ := ih sc g (fun q hq => hwf q (by simp [hq])) hagrest
    rw [hscpos] at hvs1
    refine ⟨mkAttr (ipSlot ip) 32768 (s.pos + nlattrSize) :: vs, ?_, ?_⟩
    · have he : s.pos + ipSlot ip + ipsSlot rest = s.pos + ipsSlot ((ip, m) :: rest) := by
        rw [htot]
        omega
      rw [he] at hvs1
      rw [hvs1]
      rfl
    · have hview : mkAttr (ipSlot ip) 32768 (s.pos + nlattrSize) =
          ⟨true, 0, (attr_list_start s 0).1.pos, (add_ip ip m (attr_list_start s 0).1).pos⟩ := by
        simp [mkAttr, NLA_F_NESTED, hp1pos, hsbpos, nlattrSize_eq]
        constructor
        · decide
        · omega
      have hpa := parse_allowed_ip_of_add_ip ip m 0 (attr_list_start s 0).1 g hipwf hm2 (by
        intro x h1 h2
        rw [hp1pos] at h1
        rw [hsbpos] at h2
        rw [hgc x (by omega) (by omega)]
        exact attr_list_end_frame _ _ x (Or.inr (by rw [hstart, nlattrSize_eq]; omega)))
      rw [hview]
      simp [List.filterMap_cons, hpa, hvs2]

/-! ## The optional trailing attributes of `set_peer` -/

/-- The (type, payload) pairs appended after the ALLOWEDIPS nest:
the optional ENDPOINT sockaddr and the optional keepalive u16. -/
def tailAttrs (p : PeerM) : List (Nat × List Nat) :=
  (match p.endpoint with
   | none => []
   | some (.v4 o, port) => [(wgpeerENDPOINT, sockaddr_in_bytes port o)]
   | some (.v6 o, port) => [(wgpeerENDPOINT, sockaddr_in6_bytes port o)]) ++
  (match p.keepalive with
   | none => []
   | some k => [(wgpeerPERSISTENT_KEEPALIVE_INTERVAL, le16 k)])

/-- `set_peer` is the outer nest around PUBLIC_KEY, the ALLOWEDIPS nest,
and the flat tail run. -/
theorem set_peer_decomp (p : PeerM) (s : BuildState) :
    set_peer p s =
      attr_list_end
        (putAttrs (tailAttrs p)
          (attr_list_end
            (set_allowed_ips p.allowed_ips
              (attr_list_start (attrPut wgpeerPUBLIC_KEY p.peer_key (attr_list_start s 0).1)
                wgpeerALLOWEDIPS).1)
            (attr_list_start (attrPut wgpeerPUBLIC_KEY p.peer_key (attr_list_start s 0).1)
              wgpeerALLOWEDIPS).2))
        (attr_list_start s 0).2 := by
  obtain ⟨key, ep, ips, ka⟩ := p
  cases ep with
  | none => cases ka <;> rfl
  | some e =>
    obtain ⟨ip, port⟩ := e
    cases ip <;> cases ka <;> rfl

theorem length_sockaddr_in_bytes_raw (port : Nat) (o : List Nat) :
    (sockaddr_in_bytes port o).length = 12 + o.length := by
  simp [sockaddr_in_bytes, le16, be16]
  omega

theorem length_sockaddr_in6_bytes_raw (port : Nat) (o : List Nat) :
    (sockaddr_in6_bytes port o).length = 12 + o.length := by
  simp [sockaddr_in6_bytes, le16, be16, le32]
  omega

theorem pairsSlot_tailAttrs (p : PeerM) :
    pairsSlot (tailAttrs p) = epSlot p.endpoint + kaSlot p.keepalive := by
  obtain ⟨key, ep, ips, ka⟩ := p
  rcases ep with _ | ⟨ip | ip, port⟩ <;> rcases ka with _ | k <;>
    simp [tailAttrs, pairsSlot, epSlot, kaSlot, le16,
      length_sockaddr_in_bytes_raw, length_sockaddr_in6_bytes_raw]

theorem tailAttrs_bounds (p : PeerM) (hwf : epWF p.endpoint) :
    ∀ pr ∈ tailAttrs p, nlattrSize + pr.2.length < 65536 ∧ pr.1 < 65536 := by
  intro pr hpr
  obtain ⟨key, ep, ips, ka⟩ := p
  rcases ep with _ | ⟨ip | ip, port⟩ <;> rcases ka with _ | k <;>
      simp [tailAttrs, epWF, ipWF] at hpr hwf ⊢
  all_goals
    try obtain ⟨⟨hlen, _⟩, _⟩ := hwf
  all_goals
    first
      | (rcases hpr with h | h <;> subst h <;>
          simp [le16, nlattrSize, wgpeerENDPOINT, wgpeerPERSISTENT_KEEPALIVE_INTERVAL,
            length_sockaddr_in_bytes_raw, length_sockaddr_in6_bytes_raw] <;> omega)
      | (subst hpr <;>
          simp [le16, nlattrSize, wgpeerENDPOINT, wgpeerPERSISTENT_KEEPALIVE_INTERVAL,
            length_sockaddr_in_bytes_raw, length_sockaddr_in6_bytes_raw] <;> omega)

/-! ## Evaluating `Peer::new`'s loop on serialized records -/

theorem peerNewLoop_ep_cons (g : Nat → Nat) (Q : Nat) (bs : List Nat) (rest : List RawAttr)
    (hbs : bytesFrom g (Q + nlattrSize) bs.length = bs.map (· % 256))
    (key : List Nat) (ep : Option (IpAddrM × Nat)) (ips : List (IpAddrM × Nat))
    (ka : Option Nat) :
    peerNewLoop g (mkAttr (nlattrSize + bs.length) wgpeerENDPOINT (Q + nlattrSize) :: rest)
        key ep ips ka =
      peerNewLoop g rest key (parse_endpoint (bs.map (· % 256))) ips ka := by
  have hv : mkAttr (nlattrSize + bs.length) wgpeerENDPOINT (Q + nlattrSize) =
      ⟨false, wgpeerENDPOINT, Q + nlattrSize, Q + nlattrSize + bs.length⟩ := by
    simp [mkAttr, nlattrSize, wgpeerENDPOINT, NLA_F_NESTED] <;> decide
  rw [hv]
  simp only [peerNewLoop, get_bytes]
  norm_num [wgpeerPUBLIC_KEY, wgpeerENDPOINT, wgpeerPERSISTENT_KEEPALIVE_INTERVAL,
    wgpeerALLOWEDIPS]
  rw [hbs]

theorem peerNewLoop_ka_cons (g : Nat → Nat) (Q : Nat) (kv : Nat) (rest : List RawAttr)
    (hkv : kv < 65536) (hkv0 : kv ≠ 0)
    (hbs : bytesFrom g (Q + nlattrSize) (le16 kv).length = (le16 kv).map (· % 256))
    (key : List Nat) (ep : Option (IpAddrM × Nat)) (ips : List (IpAddrM × Nat))
    (ka : Option Nat) :
    peerNewLoop g
        (mkAttr (nlattrSize + (le16 kv).length) wgpeerPERSISTENT_KEEPALIVE_INTERVAL
            (Q + nlattrSize) :: rest)
        key ep ips ka =
      peerNewLoop g rest key ep ips (some kv) := by
  have hv : mkAttr (nlattrSize + (le16 kv).length) wgpeerPERSISTENT_KEEPALIVE_INTERVAL
        (Q + nlattrSize) =
      ⟨false, wgpeerPERSISTENT_KEEPALIVE_INTERVAL, Q + nlattrSize, Q + nlattrSize + 2⟩ := by
    simp [mkAttr, nlattrSize, le16, wgpeerPERSISTENT_KEEPALIVE_INTERVAL, NLA_F_NESTED] <;> decide
  rw [hv]
  have hle : fromAttrU16 (List.map (fun x => x % 256) (le16 kv)) = some kv :=
    fromAttrU16_le16 kv hkv
  have hl2 : (le16 kv).length = 2 := rfl
  rw [hl2] at hbs
  simp only [peerNewLoop, get_bytes]
  norm_num [wgpeerPUBLIC_KEY, wgpeerENDPOINT, wgpeerPERSISTENT_KEEPALIVE_INTERVAL,
    wgpeerALLOWEDIPS]
  rw [hbs, hle]
  simp [Option.filter, hkv0]

theorem peerNewLoop_tail (p : PeerM) (g : Nat → Nat) (Q : Nat)
    (hep : epWF p.endpoint) (hka : kaWF p.keepalive)
    (hpay : PairPayloads g Q (tailAttrs p))
    (key : List Nat) (ips : List (IpAddrM × Nat)) :
    peerNewLoop g (pairViews Q (tailAttrs p)) key none ips none =
      some { peer_key := key, endpoint := p.endpoint, allowed_ips := ips,
             keepalive := p.keepalive } := by
  obtain ⟨k0, ep, ips0, ka⟩ := p
  rcases ep with _ | ⟨ip | ip, port⟩ <;> rcases ka with _ | kv <;>
      simp only [tailAttrs, epWF, kaWF, ipWF, pairViews, PairPayloads, List.nil_append,
        List.cons_append] at hep hka hpay ⊢
  · rfl
  · rw [peerNewLoop_ka_cons g Q kv [] hka.1 hka.2 hpay.1]
    rfl
  · obtain ⟨⟨ho, hob⟩, hport⟩ := hep
    rw [peerNewLoop_ep_cons g Q (sockaddr_in_bytes port ip) [] hpay.1,
      parse_endpoint_v4 port ip hport ho hob]
    rfl
  · obtain ⟨⟨ho, hob⟩, hport⟩ := hep
    rw [peerNewLoop_ep_cons g Q (sockaddr_in_bytes port ip)
        [mkAttr (nlattrSize + (le16 kv).length) wgpeerPERSISTENT_KEEPALIVE_INTERVAL
          (Q + attrSlot (sockaddr_in_bytes port ip).length + nlattrSize)] hpay.1,
      parse_endpoint_v4 port ip hport ho hob]
    rw [peerNewLoop_ka_cons g (Q + attrSlot (sockaddr_in_bytes port ip).length) kv []
        hka.1 hka.2 hpay.2.1]
    rfl
  · obtain ⟨⟨ho, hob⟩, hport⟩ := hep
    rw [peerNewLoop_ep_cons g Q (sockaddr_in6_bytes port ip) [] hpay.1,
      parse_endpoint_v6 port ip hport ho hob]
    rfl
  · obtain ⟨⟨ho, hob⟩, hport⟩ := hep
    rw [peerNewLoop_ep_cons g Q (sockaddr_in6_bytes port ip)
        [mkAttr (nlattrSize + (le16 kv).length) wgpeerPERSISTENT_KEEPALIVE_INTERVAL
          (Q + attrSlot (sockaddr_in6_bytes port ip).length + nlattrSize)] hpay.1,
      parse_endpoint_v6 port ip hport ho hob]
    rw [peerNewLoop_ka_cons g (Q + attrSlot (sockaddr_in6_bytes port ip).length) kv []
        hka.1 hka.2 hpay.2.1]
    rfl

/-- C1: for every well-formed `Peer` (32-byte key with byte entries, a
well-formed optional v4/v6 endpoint, well-formed allowed IPs, an optional
nonzero keepalive below 2^16) that fits in the message buffer,
serializing with `NestBuilder::set_peer` and parsing the resulting nest
back with `Peer::new` (via the attribute iterator) yields the original
peer: the cursor advances by exactly the nest slot, the back-patched
outer header carries the nest length and the NLA_F_NESTED flag, and the
parsed key bytes, endpoint, allowed-ip list (in order) and keepalive all
equal the originals. -/
theorem set_peer_roundtrip (p : PeerM) (s : BuildState)
    (hwf : PeerWF p) (hcap : s.pos + peerSlot p ≤ MAX_NL_MSG_SIZE) :
    (set_peer p s).pos = s.pos + peerSlot p ∧
    readU16 (set_peer p s).buf s.pos = peerSlot p ∧
    readU16 (set_peer p s).buf (s.pos + 2) = NLA_F_NESTED ∧
    (parseAttrs (set_peer p s).buf (s.pos + nlattrSize) (s.pos + peerSlot p)).bind
        (peerNew (set_peer p s).buf) = some p := by
  obtain ⟨hk32, hkb, hep, hips, hka⟩ := hwf
  have hn4 : nlattrSize = 4 := rfl
  rw [set_peer_decomp p s]
  generalize hni0 : (attr_list_start s 0).2 = ni0
  generalize hp1 : (attr_list_start s 0).1 = p1
  generalize hs1 : attrPut wgpeerPUBLIC_KEY p.peer_key p1 = s1
  generalize hni1 : (attr_list_start s1 wgpeerALLOWEDIPS).2 = ni1
  generalize hi1 : (attr_list_start s1 wgpeerALLOWEDIPS).1 = i1
  generalize hsA : set_allowed_ips p.allowed_ips i1 = sA
  generalize hs2 : attr_list_end sA ni1 = s2
  generalize hs4 : putAttrs (tailAttrs p) s2 = s4
  generalize hs5 : attr_list_end s4 ni0 = s5
  -- positions
  have hp1pos : p1.pos = s.pos + 4 := by
    rw [← hp1, attr_list_start_pos, nlattrSize_eq]
  have hal32 : nl_align_length 32 = 32 := rfl
  have hs1pos : s1.pos = s.pos + 40 := by
    rw [← hs1, attrPut_pos, hp1pos, hk32, nlattrSize_eq, hal32]
  have hi1pos : i1.pos = s.pos + 44 := by
    rw [← hi1, attr_list_start_pos, hs1pos, nlattrSize_eq]
  have hsApos : sA.pos = s.pos + 44 + ipsSlot p.allowed_ips := by
    rw [← hsA, set_allowed_ips_pos, hi1pos]
  have hs2pos : s2.pos = s.pos + 44 + ipsSlot p.allowed_ips := by
    rw [← hs2, attr_list_end_pos, hsApos]
  have hs4pos : s4.pos = s.pos + 44 + ipsSlot p.allowed_ips + pairsSlot (tailAttrs p) := by
    rw [← hs4, putAttrs_pos, hs2pos]
  have hs5pos : s5.pos = s.pos + 44 + ipsSlot p.allowed_ips + pairsSlot (tailAttrs p) := by
    rw [← hs5, attr_list_end_pos, hs4pos]
  have hni0s : ni0.start_pos = s.pos := by rw [← hni0]; rfl
  have hni0t : ni0.nla_type = 32768 := by rw [← hni0]; rfl
  have hni1s : ni1.start_pos = s.pos + 40 := by
    rw [← hni1, attr_list_start_info]
    exact hs1pos
  have hni1t : ni1.nla_type = 32777 := by
    rw [← hni1, attr_list_start_info]
    show wgpeerALLOWEDIPS ||| NLA_F_NESTED = 32777
    decide
  have hatt36 : attrSlot 32 = 36 := rfl
  have hps : peerSlot p = 44 + ipsSlot p.allowed_ips + pairsSlot (tailAttrs p) := by
    unfold peerSlot
    rw [pairsSlot_tailAttrs, hk32, hatt36, hn4]
    clear * - hn4
    omega
  have hcap2 : s.pos + (44 + ipsSlot p.allowed_ips + pairsSlot (tailAttrs p)) ≤ 2048 := by
    rw [← hps]
    exact hcap
  have hI2048 : ipsSlot p.allowed_ips ≤ 2048 := by
    clear * - hcap2
    omega
  -- frame agreement between the final buffer and the intermediate states
  have hA : ∀ x, s.pos + 4 ≤ x → x < s.pos + 40 → s5.buf x = s1.buf x := by
    intro x hx1 hx2
    have c1 : x < ni0.start_pos ∨ ni0.start_pos + nlattrSize ≤ x := by
      right
      rw [hni0s, nlattrSize_eq]
      clear * - hx1
      omega
    have c2 : x < s2.pos ∨ s2.pos + pairsSlot (tailAttrs p) ≤ x := by
      left
      rw [hs2pos]
      clear * - hx2
      omega
    have c3 : x < ni1.start_pos ∨ ni1.start_pos + nlattrSize ≤ x := by
      left
      rw [hni1s]
      exact hx2
    have c4 : x < i1.pos ∨ i1.pos + ipsSlot p.allowed_ips ≤ x := by
      left
      rw [hi1pos]
      clear * - hx2
      omega
    rw [← hs5, attr_list_end_frame s4 ni0 x c1]
    rw [← hs4, putAttrs_frame _ s2 x c2]
    rw [← hs2, attr_list_end_frame sA ni1 x c3]
    rw [← hsA, set_allowed_ips_frame p.allowed_ips i1 x c4]
    rw [← hi1, attr_list_start_buf]
  have hB : ∀ x, s.pos + 40 ≤ x → x < s.pos + 44 → s5.buf x = s2.buf x := by
    intro x hx1 hx2
    have c1 : x < ni0.start_pos ∨ ni0.start_pos + nlattrSize ≤ x := by
      right
      rw [hni0s, nlattrSize_eq]
      clear * - hx1
      omega
    have c2 : x < s2.pos ∨ s2.pos + pairsSlot (tailAttrs p) ≤ x := by
      left
      rw [hs2pos]
      clear * - hx2
      omega
    rw [← hs5, attr_list_end_frame s4 ni0 x c1]
    rw [← hs4, putAttrs_frame _ s2 x c2]
  have hC : ∀ x, s.pos + 44 ≤ x → x < s.pos + 44 + ipsSlot p.allowed_ips →
      s5.buf x = sA.buf x := by
    intro x hx1 hx2
    have c1 : x < ni0.start_pos ∨ ni0.start_pos + nlattrSize ≤ x := by
      right
      rw [hni0s, nlattrSize_eq]
      clear * - hx1
      omega
    have c2 : x < s2.pos ∨ s2.pos + pairsSlot (tailAttrs p) ≤ x := by
      left
      rw [hs2pos]
      exact hx2
    have c3 : x < ni1.start_pos ∨ ni1.start_pos + nlattrSize ≤ x := by
      right
      rw [hni1s, nlattrSize_eq]
      clear * - hx1
      omega
    rw [← hs5, attr_list_end_frame s4 ni0 x c1]
    rw [← hs4, putAttrs_frame _ s2 x c2]
    rw [← hs2, attr_list_end_frame sA ni1 x c3]
  have hD : ∀ x, s.pos + 44 + ipsSlot p.allowed_ips ≤ x → s5.buf x = s4.buf x := by
    intro x hx1
    have c1 : x < ni0.start_pos ∨ ni0.start_pos + nlattrSize ≤ x := by
      right
      rw [hni0s, nlattrSize_eq]
      clear * - hx1
      omega
    rw [← hs5, attr_list_end_frame s4 ni0 x c1]
  -- headers of the two records of the outer nest
  have hhdr1 := attrPut_header wgpeerPUBLIC_KEY p.peer_key p1
  rw [hs1, hp1pos, hk32] at hhdr1
  have hlen1 : readU16 s5.buf (s.pos + 4) = 36 := by
    rw [readU16_congr (hA (s.pos + 4) (Nat.le_refl _) (by clear * - hn4; omega))
      (hA (s.pos + 4 + 1) (by clear * - hn4; omega) (by clear * - hn4; omega))]
    rw [hhdr1.1, nlattrSize_eq]
  have hty1 : readU16 s5.buf (s.pos + 4 + 2) = 1 := by
    rw [readU16_congr (hA (s.pos + 4 + 2) (by clear * - hn4; omega) (by clear * - hn4; omega))
      (hA (s.pos + 4 + 2 + 1) (by clear * - hn4; omega) (by clear * - hn4; omega))]
    rw [hhdr1.2]
    rfl
  have hh2 := attr_list_end_header sA ni1
  rw [hs2, hni1s, hsApos, hni1t] at hh2
  have hlen2 : readU16 s5.buf (s.pos + 40) = 4 + ipsSlot p.allowed_ips := by
    rw [readU16_congr (hB (s.pos + 40) (Nat.le_refl _) (by clear * - hn4; omega))
      (hB (s.pos + 40 + 1) (by clear * - hn4; omega) (by clear * - hn4; omega))]
    rw [hh2.1]
    clear * - hI2048
    omega
  have hty2 : readU16 s5.buf (s.pos + 40 + 2) = 32777 := by
    rw [readU16_congr (hB (s.pos + 40 + 2) (by clear * - hn4; omega) (by clear * - hn4; omega))
      (hB (s.pos + 40 + 2 + 1) (by clear * - hn4; omega) (by clear * - hn4; omega))]
    rw [hh2.2]
  -- the two iterator steps over those records
  have hnx1 : s.pos + 4 + nlattrSize + nl_align_length (36 - nlattrSize) = s.pos + 40 := by
    rw [nlattrSize_eq]
    norm_num
    rw [hal32]
  have hb1 : s.pos + 4 + nlattrSize + nl_align_length (36 - nlattrSize) ≤
      s.pos + 44 + ipsSlot p.allowed_ips + pairsSlot (tailAttrs p) := by
    rw [hnx1]
    clear * - hn4
    omega
  have hstep1 := attrNext_yield_of hlen1 hty1 hb1
  rw [hnx1] at hstep1
  have hnx2 : s.pos + 40 + nlattrSize +
      nl_align_length (4 + ipsSlot p.allowed_ips - nlattrSize) =
      s.pos + 44 + ipsSlot p.allowed_ips := by
    have e1 : 4 + ipsSlot p.allowed_ips - nlattrSize = ipsSlot p.allowed_ips := by
      rw [nlattrSize_eq]
      clear * - hn4
      omega
    rw [e1, nl_align_length_of_aligned (ipsSlot_mod4 p.allowed_ips), nlattrSize_eq]
  have hb2 : s.pos + 40 + nlattrSize +
      nl_align_length (4 + ipsSlot p.allowed_ips - nlattrSize) ≤
      s.pos + 44 + ipsSlot p.allowed_ips + pairsSlot (tailAttrs p) := by
    rw [hnx2]
    clear * - hn4
    omega
  have hstep2 := attrNext_yield_of hlen2 hty2 hb2
  rw [hnx2] at hstep2
  -- the flat tail region
  have hDag : ∀ x, s2.pos ≤ x → x < s2.pos + pairsSlot (tailAttrs p) →
      s5.buf x = (putAttrs (tailAttrs p) s2).buf x := by
    intro x hx1 hx2
    rw [hs4]
    exact hD x (by rw [hs2pos] at hx1; exact hx1)
  have htail := putAttrs_parse (tailAttrs p) s2 s5.buf (tailAttrs_bounds p hep) hDag
  rw [hs2pos] at htail
  have hpayT := putAttrs_payloads (tailAttrs p) s2 s5.buf hDag
  rw [hs2pos] at hpayT
  -- the serialized ALLOWEDIPS children
  have hCag : ∀ x, i1.pos ≤ x → x < i1.pos + ipsSlot p.allowed_ips →
      s5.buf x = (set_allowed_ips p.allowed_ips i1).buf x := by
    intro x hx1 hx2
    rw [hsA]
    rw [hi1pos] at hx1 hx2
    exact hC x hx1 hx2
  obtain ⟨vs, hvs1, hvs2⟩ := set_allowed_ips_parse p.allowed_ips i1 s5.buf hips hCag
  rw [hi1pos] at hvs1
  -- the public-key payload
  have hkpay := attrPut_payload wgpeerPUBLIC_KEY p.peer_key p1
  rw [hs1, hp1pos, hk32, map_mod_id hkb] at hkpay
  have e8 : s.pos + 4 + nlattrSize = s.pos + 8 := by rw [nlattrSize_eq]
  rw [e8] at hkpay
  have hkey8 : bytesFrom s5.buf (s.pos + 8) 32 = p.peer_key := by
    rw [bytesFrom_congr (fun i hi =>
      hA (s.pos + 8 + i) (by clear * - hi; omega) (by clear * - hi; omega))]
    exact hkpay
  -- assemble the parse of the whole nest body
  have hparse : parseAttrs s5.buf (s.pos + 4)
      (s.pos + 44 + ipsSlot p.allowed_ips + pairsSlot (tailAttrs p)) =
      some (mkAttr 36 1 (s.pos + 4 + nlattrSize) ::
        mkAttr (4 + ipsSlot p.allowed_ips) 32777 (s.pos + 40 + nlattrSize) ::
        pairViews (s.pos + 44 + ipsSlot p.allowed_ips) (tailAttrs p)) := by
    rw [parseAttrs_yield hstep1, parseAttrs_yield hstep2, htail]
    rfl
  -- evaluate Peer::new on the three groups of records
  have hv1 : mkAttr 36 1 (s.pos + 4 + nlattrSize) =
      ⟨false, 1, s.pos + 8, s.pos + 40⟩ := by
    simp only [mkAttr, NLA_F_NESTED, RawAttr.mk.injEq]
    exact ⟨by decide, by decide, by clear * - hn4; omega, by clear * - hn4; omega⟩
  have hv2 : mkAttr (4 + ipsSlot p.allowed_ips) 32777 (s.pos + 40 + nlattrSize) =
      ⟨true, 9, s.pos + 44, s.pos + 44 + ipsSlot p.allowed_ips⟩ := by
    simp only [mkAttr, NLA_F_NESTED, RawAttr.mk.injEq]
    exact ⟨by decide, by decide, by clear * - hn4; omega, by clear * - hn4; omega⟩
  have hloop : peerNew s5.buf
      (mkAttr 36 1 (s.pos + 4 + nlattrSize) ::
        mkAttr (4 + ipsSlot p.allowed_ips) 32777 (s.pos + 40 + nlattrSize) ::
        pairViews (s.pos + 44 + ipsSlot p.allowed_ips) (tailAttrs p)) = some p := by
    show peerNewLoop s5.buf _ [] none [] none = some p
    rw [hv1, hv2]
    simp only [peerNewLoop, get_bytes]
    norm_num [wgpeerPUBLIC_KEY, wgpeerENDPOINT, wgpeerPERSISTENT_KEEPALIVE_INTERVAL,
      wgpeerALLOWEDIPS]
    have e32 : s.pos + 40 - (s.pos + 8) = 32 := by clear * - hn4; omega
    rw [e32, hkey8]
    simp only [hvs1]
    rw [hvs2]
    rw [peerNewLoop_tail p s5.buf (s.pos + 44 + ipsSlot p.allowed_ips) hep hka hpayT
      p.peer_key p.allowed_ips]
  -- the four conclusions
  refine ⟨?_, ?_, ?_, ?_⟩
  · rw [hs5pos, hps]
    clear * - hn4
    omega
  · have hh0 := attr_list_end_header s4 ni0
    rw [hs5, hni0s, hni0t, hs4pos] at hh0
    rw [hh0.1, hps]
    clear * - hcap2
    omega
  · have hh0 := attr_list_end_header s4 ni0
    rw [hs5, hni0s, hni0t, hs4pos] at hh0
    rw [hh0.2]
    rfl
  · have he1 : s.pos + nlattrSize = s.pos + 4 := by rw [nlattrSize_eq]
    have he2 : s.pos + peerSlot p =
        s.pos + 44 + ipsSlot p.allowed_ips + pairsSlot (tailAttrs p) := by
      rw [hps]
      clear * - hn4
      omega
    rw [he1, he2, hparse]
    simp only [Option.some_bind]
    exact hloop

/-- A concrete peer exercising every optional field of the round trip. -/
def peerRT : PeerM :=
  { peer_key := List.replicate 32 7
    endpoint := some (.v4 [10, 0, 0, 1], 51820)
    allowed_ips := [(.v4 [10, 0, 0, 2], 32), (.v6 (List.replicate 16 1), 64)]
    keepalive := some 25 }

/-- An empty builder buffer. -/
def stateRT : BuildState := { buf := fun _ => 0, pos := 0 }

theorem set_peer_roundtrip_witness :
    PeerWF peerRT ∧ stateRT.pos + peerSlot peerRT ≤ MAX_NL_MSG_SIZE ∧
      ((set_peer peerRT stateRT).pos = stateRT.pos + peerSlot peerRT ∧
       readU16 (set_peer peerRT stateRT).buf stateRT.pos = peerSlot peerRT ∧
       readU16 (set_peer peerRT stateRT).buf (stateRT.pos + 2) = NLA_F_NESTED ∧
       (parseAttrs (set_peer peerRT stateRT).buf (stateRT.pos + nlattrSize)
           (stateRT.pos + peerSlot peerRT)).bind
         (peerNew (set_peer peerRT stateRT).buf) = some peerRT) :=
  ⟨by decide, by decide, set_peer_roundtrip peerRT stateRT (by decide) (by decide)⟩
